import Mathlib

/-!
Verification of the state-replication core of the AsteroidsEngine repository.

This file is a shallow embedding, in Lean 4, of the parts of the engine that the
checked claims are about:

* the bounds test of `MessageBuffer::operator[]` (src/asteroids/network.hpp);
* the connection warning counter of `NetworkManager` (src/asteroids/network.hpp);
* the client-side snapshot reorder buffer and desync recovery of `ClientInterface`
  (src/asteroids/network.hpp);
* the deserialization order of delta snapshots (`NetworkSnapshotManager`,
  `EntityWorldNetworkManager`, `PhysicsWorldNetworkManager`);
* the generation purge performed while applying component snapshots;
* the High/Low priority pending-update bookkeeping of `EntityWorldNetworkManager`;
* the polygon vertex fixing of `Polygon::fixVertices` (src/asteroids/physics.hpp);
* the narrow-phase collision tests (src/asteroids/physics.hpp, src/asteroids/core.hpp).

Machine integers (`u8`, `u32`, `u64`, `size_t`) are modelled as `Nat`, with an
explicit `% 2 ^ 64` where wrap-around matters.  The floating point values of the
physics code are modelled as exact rationals; `sf::Vector2f::length` (a square
root, the only irrational operation involved) is passed into the embedding as an
abstract function parameter.
-/

namespace ae

/-! ### MessageBuffer (src/asteroids/network.hpp, `MessageBuffer::operator[]`) -/

/-- Modulus of `size_t` arithmetic on the target platform (64-bit). -/
def sizeTMod : Nat := 2 ^ 64

/-- Embeds the bounds check of `MessageBuffer::operator[]`: the fatal
"Index out of bounds" log fires when `index > size - 1`, where `size` and `index`
are `size_t` values, so the subtraction `size - 1` wraps modulo `2 ^ 64` when
`size = 0`.  Returns `true` exactly when the fatal error is raised. -/
def messageBufferIndexFatal (size index : Nat) : Bool :=
  index > (size + sizeTMod - 1) % sizeTMod

/-! ### Connection warnings (src/asteroids/network.hpp, `NetworkManager`) -/

/-- Fixed warning threshold `NetworkManager::maxWarnings`. -/
def maxWarnings : Nat := 5

/-- Association-list update with map semantics: overwrites the entry of key `k`
in place, appending a fresh entry when the key is absent. -/
def setPair {β : Type} (l : List (Nat × β)) (k : Nat) (v : β) : List (Nat × β) :=
  match l with
  | [] => [(k, v)]
  | (a, b) :: rest => if a = k then (k, v) :: rest else (a, b) :: setPair rest k v

/-- Connection table of `NetworkManager`
(`std::unordered_map<HSteamNetConnection, ConnectionData>`), kept as an
association list from connection handle to its warning counter. -/
abbrev Connections := List (Nat × Nat)

/-- Reads the warning counter of a connection, if the connection is present. -/
def lookupWarnings (cs : Connections) (conn : Nat) : Option Nat :=
  cs.lookup conn

/-- Reads `connections[conn].warnings` with `operator[]` semantics: an absent
entry counts as default-constructed, with zero warnings. -/
def warningsOf (cs : Connections) (conn : Nat) : Nat :=
  (cs.lookup conn).getD 0

/-- Writes the warning counter of a connection, default-creating the entry as
`std::unordered_map::operator[]` does. -/
def setWarnings (cs : Connections) (conn w : Nat) : Connections :=
  setPair cs conn w

/-- Removes a connection from the table (`connections.erase(conn)` inside
`NetworkManager::onConnectionLeave`). -/
def eraseConnection (cs : Connections) (conn : Nat) : Connections :=
  cs.filter (fun p => p.1 ≠ conn)

/-- Embeds `NetworkManager::connectionAddWarning`: `connections[conn].warnings++`,
then, if the counter exceeds `maxWarnings`, the connection is forcibly
disconnected (`onConnectionLeave`, which erases it from the table). -/
def connectionAddWarning (cs : Connections) (conn : Nat) : Connections :=
  let cs1 := setWarnings cs conn (warningsOf cs conn + 1)
  if warningsOf cs1 conn > maxWarnings then eraseConnection cs1 conn else cs1

/-- Embeds the handling of one received message in `NetworkManager::update`:
when `endDeserialize` reports a failure the connection receives a warning;
otherwise the connection table is untouched. -/
def receiveMessageStep (cs : Connections) (conn : Nat) (deserializeOk : Bool) :
    Connections :=
  if deserializeOk then cs else connectionAddWarning cs conn

/-! ### Client snapshot buffering (src/asteroids/network.hpp, `ClientInterface`) -/

/-- Fixed desync threshold `ClientInterface::defaultMaxDsyncBeforeFullSnapshot`. -/
def defaultMaxDsyncBeforeFullSnapshot : Nat := 30

/-- One buffered snapshot (struct `ClientInterface::Snapshot`): an OR-accumulated
flag byte plus the accumulated snapshot bytes. -/
structure Snapshot where
  flags : Nat
  buffer : List Nat
deriving DecidableEq, Repr

/-- Default-constructed `ClientInterface::Snapshot`. -/
def emptySnapshot : Snapshot := ⟨0, []⟩

/-- Client-side replication state of `ClientInterface`: the tick-indexed map
`snapshots` (a `std::map<u32, Snapshot>`, kept as an association list whose
length is the map's size), the FIFO `snapshotsQueue`, `currentServerTick`, and
the `sentFullSnapshotRequest` flag. -/
structure ClientState where
  snapshots : List (Nat × Snapshot)
  snapshotsQueue : List Nat
  currentServerTick : Nat
  sentFullSnapshotRequest : Bool
deriving DecidableEq, Repr

/-- Looks a tick up in the pending snapshot map (`snapshots.find(tickNum)`). -/
def findSnapshot (m : List (Nat × Snapshot)) (t : Nat) : Option Snapshot :=
  m.lookup t

/-- Reads `snapshots[t]` through `operator[]` and stores an updated value:
updates the entry in place, default-creating it when absent. -/
def updateSnapshot (m : List (Nat × Snapshot)) (t : Nat) (f : Snapshot → Snapshot) :
    List (Nat × Snapshot) :=
  setPair m t (f ((m.lookup t).getD emptySnapshot))

/-- Removes a tick from the pending snapshot map (`snapshots.erase`). -/
def eraseSnapshot (m : List (Nat × Snapshot)) (t : Nat) : List (Nat × Snapshot) :=
  m.filter (fun p => p.1 ≠ t)

/-- One tick entry of a snapshot compilation on the wire: the flag byte and the
length-prefixed snapshot bytes, already split out of the stream. -/
structure Fragment where
  flags : Nat
  bytes : List Nat
deriving DecidableEq, Repr

/-- Embeds one loop iteration of
`ClientInterface::deserializeReliableSnapshotCompilation`: push the tick onto the
queue, append the snapshot bytes into `snapshots[tickNum].buffer`, OR the flags. -/
def reliableFragmentStep (s : ClientState) (t : Nat) (f : Fragment) : ClientState :=
  { s with
    snapshotsQueue := s.snapshotsQueue ++ [t]
    snapshots := updateSnapshot s.snapshots t
      (fun sn => ⟨sn.flags ||| f.flags, sn.buffer ++ f.bytes⟩) }

/-- Embeds one loop iteration of
`ClientInterface::deserializeUnreliableSnapshotCompilation`: a fragment whose tick
is below `currentServerTick`, or absent from the pending map, is skipped — the
read position is advanced past its bytes and nothing else changes; otherwise the
fragment is merged like a reliable one (but the queue is never touched). -/
def unreliableFragmentStep (s : ClientState) (t : Nat) (f : Fragment) : ClientState :=
  if t < s.currentServerTick ∨ findSnapshot s.snapshots t = none then s
  else
    { s with
      snapshots := updateSnapshot s.snapshots t
        (fun sn => ⟨sn.flags ||| f.flags, sn.buffer ++ f.bytes⟩) }

/-- Runs the per-fragment loop of either compilation deserializer: the tick
number starts at the compilation header's tick and increments per fragment. -/
def runFragments (step : ClientState → Nat → Fragment → ClientState)
    (s : ClientState) (start : Nat) : List Fragment → ClientState
  | [] => s
  | f :: rest => runFragments step (step s start f) (start + 1) rest

/-- Embeds the second half of `ClientInterface::beginTick`: when the pending
queue is non-empty, pop the earliest tick, make it the current server tick,
apply its buffered snapshot to the local store and erase it from the map.  Only
the client bookkeeping fields are modelled; the entity-world effects of
`updateAllWithSnapshotBuffer` are embedded separately. -/
def clientApplyQueuedSnapshot (s : ClientState) : ClientState :=
  match s.snapshotsQueue with
  | [] => s
  | t :: rest =>
    { s with
        currentServerTick := t
        snapshotsQueue := rest
        snapshots := eraseSnapshot s.snapshots t }

/-- Embeds `ClientInterface::beginTick`, returning the new state together with
the number of `MESSAGE_HEADER_REQUEST_SNAPSHOT_FULL` messages sent during the
call: first the desync check — more than `defaultMaxDsyncBeforeFullSnapshot`
buffered ticks while no request is outstanding sends exactly one request and
latches `sentFullSnapshotRequest` — then one queued snapshot is popped and
applied. -/
def clientBeginTick (s : ClientState) : ClientState × Nat :=
  if s.snapshots.length > defaultMaxDsyncBeforeFullSnapshot ∧
      s.sentFullSnapshotRequest = false
  then (clientApplyQueuedSnapshot { s with sentFullSnapshotRequest := true }, 1)
  else (clientApplyQueuedSnapshot s, 0)

/-- Embeds the `MESSAGE_HEADER_SNAPSHOT_FULL` branch of
`ClientInterface::_internalOnMessageRecieved`: clear the request latch, drain the
pending queue, clear the snapshot map, then apply the full snapshot. -/
def clientRecvFullSnapshot (s : ClientState) : ClientState :=
  { s with sentFullSnapshotRequest := false, snapshotsQueue := [], snapshots := [] }

/-- Externally visible client events that touch the reorder buffer. -/
inductive ClientEvent where
  | beginTick
  | recvReliable (startTick : Nat) (frags : List Fragment)
  | recvUnreliable (startTick : Nat) (frags : List Fragment)
  | recvFullSnapshot
deriving DecidableEq, Repr

/-- Dispatches one client event; the second component is the number of
full-snapshot request messages sent while handling it. -/
def clientStep (s : ClientState) : ClientEvent → ClientState × Nat
  | .beginTick => clientBeginTick s
  | .recvReliable start frags => (runFragments reliableFragmentStep s start frags, 0)
  | .recvUnreliable start frags => (runFragments unreliableFragmentStep s start frags, 0)
  | .recvFullSnapshot => (clientRecvFullSnapshot s, 0)

/-- Runs a list of client events, accumulating the number of full-snapshot
request messages sent. -/
def clientRun (s : ClientState) : List ClientEvent → ClientState × Nat
  | [] => (s, 0)
  | e :: rest =>
    let step := clientStep s e
    let run := clientRun step.1 rest
    (run.1, step.2 + run.2)

/-- Tests for the full-snapshot receipt event. -/
def isFullSnapshotEvent : ClientEvent → Bool
  | .recvFullSnapshot => true
  | _ => false

/-- Number of `MESSAGE_HEADER_SNAPSHOT_FULL` receipts in an event list. -/
def countFullSnapshots (evs : List ClientEvent) : Nat :=
  evs.countP isFullSnapshotEvent

/-- Number of further full-snapshot requests the latch permits before another
full snapshot arrives: one while the request flag is clear, none once latched. -/
def requestAllowance (b : Bool) : Nat :=
  if b then 0 else 1

/-! ### Delta-snapshot application order
(src/asteroids/network.hpp, `NetworkSnapshotManager::updateAllWithSnapshotBuffer`,
`EntityWorldNetworkManager::deserializeEntityComponentMetaSnapshot`,
`EntityWorldNetworkManager::deserializeComponentSnapshot`,
`PhysicsWorldNetworkManager::deserializePhysicsWorldSnapshot`)

The deserializers are embedded as sequential readers over a stream of serialized
values; each `des.object(...)` call consumes one value, and opaque component or
shape payloads consume one value as well.  Applying a snapshot is embedded as the
list of primitive store edits, in the exact order the source performs them. -/

/-- Primitive effects applied to the local store while a snapshot buffer is
deserialized. -/
inductive NetOp where
  | stateTransition (stateId : Nat)
  | physicsUpdate (shapeId : Nat)
  | addComponent (entity comp : Nat)
  | removeComponent (entity comp : Nat)
  | destroyEntity (entity : Nat)
  | enableEntity (entity : Nat)
  | disableEntity (entity : Nat)
  | updateComponent (entity comp : Nat)
deriving DecidableEq, Repr

/-- Serialized input stream: the sequence of values read by `des.object(...)`. -/
abbrev ByteStream := List Nat

/-- Reads one serialized value; fails on an exhausted stream. -/
def readValue : ByteStream → Option (Nat × ByteStream)
  | [] => none
  | v :: rest => some (v, rest)

/-- Reads `n` serialized values. -/
def readValues : Nat → ByteStream → Option (List Nat × ByteStream)
  | 0, s => some ([], s)
  | n + 1, s =>
    match readValue s with
    | none => none
    | some (v, s) =>
      match readValues n s with
      | none => none
      | some (vs, s) => some (v :: vs, s)

/-- Embeds the inner entity loop of an archetype group of the meta snapshot: for
each serialized entity id, one `mk entity comp` edit per component id of the
group, in the group's order (`e.add(impl::af(compId))` resp. `e.remove(...)`). -/
def deserArchetypeEntities (mk : Nat → Nat → NetOp) (idList : List Nat) :
    Nat → ByteStream → Option (List NetOp × ByteStream)
  | 0, s => some ([], s)
  | n + 1, s =>
    match readValue s with
    | none => none
    | some (e, s) =>
      match deserArchetypeEntities mk idList n s with
      | none => none
      | some (ops, s) => some (idList.map (mk e) ++ ops, s)

/-- Embeds the archetype loop of the meta snapshot: each archetype is a
component-id list followed by an entity list. -/
def deserArchetypes (mk : Nat → Nat → NetOp) :
    Nat → ByteStream → Option (List NetOp × ByteStream)
  | 0, s => some ([], s)
  | n + 1, s =>
    match readValue s with
    | none => none
    | some (idListSize, s) =>
      match readValues idListSize s with
      | none => none
      | some (idList, s) =>
        match readValue s with
        | none => none
        | some (entityCount, s) =>
          match deserArchetypeEntities mk idList entityCount s with
          | none => none
          | some (ops, s) =>
            match deserArchetypes mk n s with
            | none => none
            | some (more, s) => some (ops ++ more, s)

/-- Reads an archetype section header (the archetype count) and its groups. -/
def deserArchetypeSection (mk : Nat → Nat → NetOp) (s : ByteStream) :
    Option (List NetOp × ByteStream) :=
  match readValue s with
  | none => none
  | some (archetypeCount, s) => deserArchetypes mk archetypeCount s

/-- Embeds the entity-id list sections of the meta snapshot (destroyed, enabled,
disabled entities): ids that are not alive are skipped with a warning
(`isIdValid`); `alive` models `impl::af(id) != 0`. -/
def deserEntityList (alive : Nat → Bool) (mk : Nat → NetOp) :
    Nat → ByteStream → Option (List NetOp × ByteStream)
  | 0, s => some ([], s)
  | n + 1, s =>
    match readValue s with
    | none => none
    | some (e, s) =>
      match deserEntityList alive mk n s with
      | none => none
      | some (ops, s) => some ((if alive e then [mk e] else []) ++ ops, s)

/-- Reads an entity-id list section header (the count) and its ids. -/
def deserEntitySection (alive : Nat → Bool) (mk : Nat → NetOp) (s : ByteStream) :
    Option (List NetOp × ByteStream) :=
  match readValue s with
  | none => none
  | some (count, s) => deserEntityList alive mk count s

/-- Embeds `EntityWorldNetworkManager::deserializeEntityComponentMetaSnapshot`:
created components, then destroyed components, then destroyed entities, then
enabled entities, then disabled entities, in the exact source order. -/
def deserializeEntityComponentMetaSnapshot (alive : Nat → Bool) (s : ByteStream) :
    Option (List NetOp × ByteStream) :=
  match deserArchetypeSection NetOp.addComponent s with
  | none => none
  | some (created, s) =>
    match deserArchetypeSection NetOp.removeComponent s with
    | none => none
    | some (destroyedComps, s) =>
      match deserEntitySection alive NetOp.destroyEntity s with
      | none => none
      | some (destroyedEntities, s) =>
        match deserEntitySection alive NetOp.enableEntity s with
        | none => none
        | some (enabled, s) =>
          match deserEntitySection alive NetOp.disableEntity s with
          | none => none
          | some (disabled, s) =>
            some (created ++ destroyedComps ++ destroyedEntities ++
                  enabled ++ disabled, s)

/-- Embeds the inner entity loop of `deserializeComponentSnapshot`: per entity,
`world.ensure(serId)` followed by one `deserializeRecords[compId]` call per
component id, each consuming that component's serialized payload. -/
def deserComponentEntities (idList : List Nat) :
    Nat → ByteStream → Option (List NetOp × ByteStream)
  | 0, s => some ([], s)
  | n + 1, s =>
    match readValue s with
    | none => none
    | some (e, s) =>
      match readValues idList.length s with
      | none => none
      | some (_, s) =>
        match deserComponentEntities idList n s with
        | none => none
        | some (ops, s) => some (idList.map (NetOp.updateComponent e) ++ ops, s)

/-- Embeds the archetype loop of `deserializeComponentSnapshot`. -/
def deserComponentArchetypes :
    Nat → ByteStream → Option (List NetOp × ByteStream)
  | 0, s => some ([], s)
  | n + 1, s =>
    match readValue s with
    | none => none
    | some (idListSize, s) =>
      match readValues idListSize s with
      | none => none
      | some (idList, s) =>
        match readValue s with
        | none => none
        | some (entityCount, s) =>
          match deserComponentEntities idList entityCount s with
          | none => none
          | some (ops, s) =>
            match deserComponentArchetypes n s with
            | none => none
            | some (more, s) => some (ops ++ more, s)

/-- Embeds `EntityWorldNetworkManager::deserializeComponentSnapshot` (component
value updates). -/
def deserializeComponentSnapshot (s : ByteStream) :
    Option (List NetOp × ByteStream) :=
  match readValue s with
  | none => none
  | some (archetypeCount, s) => deserComponentArchetypes archetypeCount s

/-- Embeds one shape list of `deserializePhysicsWorldSnapshot`: each element is a
shape id followed by the serialized shape payload. -/
def deserShapeList : Nat → ByteStream → Option (List NetOp × ByteStream)
  | 0, s => some ([], s)
  | n + 1, s =>
    match readValue s with
    | none => none
    | some (shapeId, s) =>
      match readValue s with
      | none => none
      | some (_payload, s) =>
        match deserShapeList n s with
        | none => none
        | some (ops, s) => some (NetOp.physicsUpdate shapeId :: ops, s)

/-- Embeds `PhysicsWorldNetworkManager::deserializePhysicsWorldSnapshot`: the
polygon list, then the circle list. -/
def deserializePhysicsWorldSnapshot (s : ByteStream) :
    Option (List NetOp × ByteStream) :=
  match readValue s with
  | none => none
  | some (polygonCount, s) =>
    match deserShapeList polygonCount s with
    | none => none
    | some (polygons, s) =>
      match readValue s with
      | none => none
      | some (circleCount, s) =>
        match deserShapeList circleCount s with
        | none => none
        | some (circles, s) => some (polygons ++ circles, s)

/-- Snapshot flag bits (`impl::SnapshotBitIndexes`). -/
def STATE_SERIALIZED : Nat := 1

/-- Snapshot flag bit `PHYSICS_SERIALIZED = 1 << 1`. -/
def PHYSICS_SERIALIZED : Nat := 2

/-- Snapshot flag bit `META_SERIALIZED = 1 << 2`. -/
def META_SERIALIZED : Nat := 4

/-- Snapshot flag bit `HIGH_PIORITY_SERIALIZED = 1 << 3` (spelling as in the
source). -/
def HIGH_PIORITY_SERIALIZED : Nat := 8

/-- Snapshot flag bit `LOW_PIORITY_SERIALIZED = 1 << 4`. -/
def LOW_PIORITY_SERIALIZED : Nat := 16

/-- Embeds `NetworkSnapshotManager::updateAllWithSnapshotBuffer`: a zero flag
byte returns immediately; otherwise the sections present are deserialized and
applied in the fixed order state id, physics shapes, entity/component meta,
high-priority component values, low-priority component values.  The result is
the ordered list of store edits the call performs. -/
def updateAllWithSnapshotBuffer (alive : Nat → Bool) (flags : Nat)
    (s : ByteStream) : Option (List NetOp) :=
  if flags = 0 then some [] else
  match (if flags &&& STATE_SERIALIZED ≠ 0 then
           match readValue s with
           | none => none
           | some (stateId, s) => some ([NetOp.stateTransition stateId], s)
         else some ([], s)) with
  | none => none
  | some (stateOps, s) =>
    match (if flags &&& PHYSICS_SERIALIZED ≠ 0 then
             deserializePhysicsWorldSnapshot s
           else some ([], s)) with
    | none => none
    | some (physicsOps, s) =>
      match (if flags &&& META_SERIALIZED ≠ 0 then
               deserializeEntityComponentMetaSnapshot alive s
             else some ([], s)) with
      | none => none
      | some (metaOps, s) =>
        match (if flags &&& HIGH_PIORITY_SERIALIZED ≠ 0 then
                 deserializeComponentSnapshot s
               else some ([], s)) with
        | none => none
        | some (highOps, s) =>
          match (if flags &&& LOW_PIORITY_SERIALIZED ≠ 0 then
                   deserializeComponentSnapshot s
                 else some ([], s)) with
          | none => none
          | some (lowOps, _) =>
            some (stateOps ++ physicsOps ++ metaOps ++ highOps ++ lowOps)

/-- Position of an edit kind in the order the source applies a snapshot. -/
def NetOp.rank : NetOp → Nat
  | .stateTransition _ => 0
  | .physicsUpdate _ => 1
  | .addComponent _ _ => 2
  | .removeComponent _ _ => 3
  | .destroyEntity _ => 4
  | .enableEntity _ => 5
  | .disableEntity _ => 6
  | .updateComponent _ _ => 7

/-- Lifecycle edits: entity destruction, component add/remove, enable/disable. -/
def NetOp.isLifecycle (op : NetOp) : Prop :=
  2 ≤ op.rank ∧ op.rank ≤ 6

/-- Component value-update edits. -/
def NetOp.isValueUpdate (op : NetOp) : Prop :=
  op.rank = 7

/-- Position of an edit kind in the order asserted by the claim under test:
entity destructions first, then component additions, then component removals,
then enable/disable flags, then value updates. -/
def NetOp.claimedRank : NetOp → Nat
  | .destroyEntity _ => 0
  | .addComponent _ _ => 1
  | .removeComponent _ _ => 2
  | .enableEntity _ => 3
  | .disableEntity _ => 3
  | .updateComponent _ _ => 4
  | .stateTransition _ => 0
  | .physicsUpdate _ => 0

/-! ### Generation purge while applying component snapshots
(src/asteroids/network.hpp `deserializeComponentSnapshot`,
src/asteroids/includes.hpp `impl::cf` / `impl::af`)

Entity ids are versioned `(index, generation)` pairs (the spec's data model; in
flecs the low 32 bits are the index and the next bits the generation, and
`impl::cf` strips everything but the index before an id goes on the wire). -/

/-- A live entity of the local store: its index, its generation, and its
component values keyed by component id. -/
structure EntityRec where
  idx : Nat
  gen : Nat
  comps : List (Nat × Nat)
deriving DecidableEq, Repr

/-- The local entity store: the list of live entities (distinct indices). -/
abbrev EntityWorld := List EntityRec

/-- Finds the live entity with a given index (`impl::af` /
`flecs::world::get_alive`). -/
def lookupEntity (w : EntityWorld) (i : Nat) : Option EntityRec :=
  w.find? (fun r => r.idx == i)

/-- Deletes every live entity with the given index. -/
def removeEntity (w : EntityWorld) (i : Nat) : EntityWorld :=
  w.filter (fun r => r.idx != i)

/-- Modelled from the spec: the flecs operation behind `world.ensure(serId)` in
`EntityWorldNetworkManager::deserializeComponentSnapshot` is implemented inside
the flecs library, which is not part of this repository's sources.  Per the
spec, "a generation mismatch observed during replication means the peer's copy
is stale and must be purged before re-created": `ensureEntity` makes the
requested id live, deleting the stale copy (same index, different generation)
first when one exists; a matching copy is returned unchanged. -/
def ensureEntity (w : EntityWorld) (i g : Nat) : EntityWorld :=
  match lookupEntity w i with
  | some r => if r.gen = g then w else removeEntity w i ++ [⟨i, g, []⟩]
  | none => w ++ [⟨i, g, []⟩]

/-- Writes one component value onto a component list
(`e.get_mut(...)` followed by the registered deserialize function). -/
def setComponent (comps : List (Nat × Nat)) (c v : Nat) : List (Nat × Nat) :=
  setPair comps c v

/-- Folds a list of component writes onto a component list. -/
def buildComponents (start : List (Nat × Nat)) (cvs : List (Nat × Nat)) :
    List (Nat × Nat) :=
  cvs.foldl (fun acc cv => setComponent acc cv.1 cv.2) start

/-- Writes the received component values onto the entity with the given index. -/
def writeComponents (w : EntityWorld) (i : Nat) (cvs : List (Nat × Nat)) :
    EntityWorld :=
  match w with
  | [] => []
  | r :: rest =>
    (if r.idx = i then EntityRec.mk r.idx r.gen (buildComponents r.comps cvs) else r) ::
      writeComponents rest i cvs

/-- Embeds the per-entity body of `deserializeComponentSnapshot`:
`flecs::entity e = world.ensure(serId)` followed by one deserialize-into-
`e.get_mut(compId)` per component id of the archetype. -/
def applyEntityComponentUpdate (w : EntityWorld) (i g : Nat)
    (cvs : List (Nat × Nat)) : EntityWorld :=
  writeComponents (ensureEntity w i g) i cvs

/-! ### High/Low priority pending updates
(src/asteroids/network.hpp, `EntityWorldNetworkManager::registerIfNonEmptyComponent`,
`serializeComponentSnapshot`, `NetworkSnapshotManager::serializeReliableSnapshot`
/ `serializeUnreliableSnapshot`) -/

/-- Component priority class (`ComponentPiority`, spelling as in the source). -/
inductive Piority where
  | high
  | low
deriving DecidableEq, Repr

/-- Pending-update bookkeeping of the server world: the two dirty maps
`highPiorityComponentsUpdates` / `lowPiorityComponentsUpdates`, flattened to
duplicate-free lists of `(entity, component)` pairs
(`std::unordered_map<u32, std::unordered_set<u32>>`), plus the set of live
entity ids. -/
structure ServerWorldState where
  highUpdates : List (Nat × Nat)
  lowUpdates : List (Nat × Nat)
  alive : List Nat
deriving DecidableEq, Repr

/-- Inserts a pending `(entity, component)` pair; a pair already recorded
collapses into the existing entry (`unordered_set::insert`). -/
def insertPending (l : List (Nat × Nat)) (p : Nat × Nat) : List (Nat × Nat) :=
  if p ∈ l then l else l ++ [p]

/-- Embeds the body of `serializeComponentSnapshot` for one dirty map: entries
whose entity is no longer alive are skipped (`impl::af(pair.first) == 0`); the
surviving pairs are written into the buffer (the archetype grouping changes only
the wire layout, not which pairs are present), and the map is cleared by the
caller.  The result is the set of pairs serialized. -/
def serializePendingUpdates (alive : List Nat) (pending : List (Nat × Nat)) :
    List (Nat × Nat) :=
  pending.filter (fun p => p.1 ∈ alive)

/-- Events of the server world that touch the pending-update maps. -/
inductive ServerEvent where
  | record (entity comp : Nat) (piority : Piority)
  | spawn (entity : Nat)
  | destroy (entity : Nat)
  | endSnapshot
deriving DecidableEq, Repr

/-- Dispatches one server event.  `record` is the OnSet/OnAdd observer installed
by `registerIfNonEmptyComponent`, inserting into the map matching the
component's priority.  `destroy` removes the entity from the live set but
deliberately leaves the pending maps untouched, as the source does.
`endSnapshot` embeds `NetworkSnapshotManager::endSnapshot`:
`serializeReliableSnapshot` writes (only) the high-priority pending updates into
the reliable buffer and `serializeUnreliableSnapshot` writes (only) the
low-priority pending updates into the unreliable buffer, both maps being cleared
by `serializeComponentSnapshot`; the produced `(reliable, unreliable)` pair is
returned. -/
def serverStep (s : ServerWorldState) :
    ServerEvent → ServerWorldState × Option (List (Nat × Nat) × List (Nat × Nat))
  | .record e c .high =>
    ({ s with highUpdates := insertPending s.highUpdates (e, c) }, none)
  | .record e c .low =>
    ({ s with lowUpdates := insertPending s.lowUpdates (e, c) }, none)
  | .spawn e => ({ s with alive := s.alive ++ [e] }, none)
  | .destroy e => ({ s with alive := s.alive.filter (fun x => x ≠ e) }, none)
  | .endSnapshot =>
    (⟨[], [], s.alive⟩,
     some (serializePendingUpdates s.alive s.highUpdates,
           serializePendingUpdates s.alive s.lowUpdates))

/-- Runs a list of server events, collecting the `(reliable, unreliable)` buffer
pair of every produced snapshot, in order. -/
def serverRun (s : ServerWorldState) :
    List ServerEvent → ServerWorldState × List (List (Nat × Nat) × List (Nat × Nat))
  | [] => (s, [])
  | e :: rest =>
    let step := serverStep s e
    let run := serverRun step.1 rest
    (run.1, (match step.2 with | none => [] | some out => [out]) ++ run.2)

/-- Number of snapshot buffers whose reliable part contains the pair `p`. -/
def countReliableContaining (p : Nat × Nat)
    (outs : List (List (Nat × Nat) × List (Nat × Nat))) : Nat :=
  outs.countP (fun o => decide (p ∈ o.1))

/-- Number of High-priority dirty records of the pair `p` in an event list. -/
def highRecordCount (p : Nat × Nat) (evs : List ServerEvent) : Nat :=
  evs.countP (fun e =>
    match e with
    | .record a b .high => decide ((a, b) = p)
    | _ => false)

/-- Number of Low-priority dirty records of the pair `p` in an event list. -/
def lowRecordCount (p : Nat × Nat) (evs : List ServerEvent) : Nat :=
  evs.countP (fun e =>
    match e with
    | .record a b .low => decide ((a, b) = p)
    | _ => false)

/-- Number of entity-destruction events in an event list. -/
def destroyCount (evs : List ServerEvent) : Nat :=
  evs.countP (fun e => match e with | .destroy _ => true | _ => false)

/-! ### Vectors (sf::Vector2f over exact rationals) -/

/-- A 2D vector; the float components of `sf::Vector2f` are modelled as exact
rationals. -/
structure Vec2 where
  x : ℚ
  y : ℚ
deriving DecidableEq, Repr

/-- Componentwise vector addition. -/
def Vec2.add (a b : Vec2) : Vec2 := ⟨a.x + b.x, a.y + b.y⟩

/-- Componentwise vector subtraction. -/
def Vec2.sub (a b : Vec2) : Vec2 := ⟨a.x - b.x, a.y - b.y⟩

/-- Componentwise vector negation. -/
def Vec2.neg (a : Vec2) : Vec2 := ⟨-a.x, -a.y⟩

/-- Dot product (`sf::Vector2f::dot`). -/
def Vec2.dot (a b : Vec2) : ℚ := a.x * b.x + a.y * b.y

/-- Squared euclidean norm (`sf::Vector2f::lengthSq`). -/
def Vec2.normSq (a : Vec2) : ℚ := a.x * a.x + a.y * a.y

/-! ### Polygon vertex fixing (src/asteroids/physics.hpp, `Polygon::fixVertices`,
`Polygon::setVertices`) -/

/-- Centroid of a vertex list: the running sum divided by the vertex count, as
computed at the top of `fixVertices`. -/
def centroidOf (vs : List Vec2) : Vec2 :=
  let sum := vs.foldl Vec2.add ⟨0, 0⟩
  ⟨sum.x / vs.length, sum.y / vs.length⟩

/-- Exact pseudo-angle of a direction vector: a rational function, strictly
increasing in the counter-clockwise angle of `v` measured from the positive
x axis, with range `[0, 4)` (one unit per quadrant). -/
def diamondAngle (v : Vec2) : ℚ :=
  if 0 ≤ v.y then
    (if 0 ≤ v.x then v.y / (v.x + v.y) else 1 + (-v.x) / (-v.x + v.y))
  else
    (if v.x < 0 then 2 + (-v.y) / (-v.x - v.y) else 3 + v.x / (v.x - v.y))

/-- Pseudo-angle order-isomorphic to the signed angle of `v` wrapped into
`[-180°, 180°)`, the convention of `sf::Angle` comparison. -/
def signedDiamond (v : Vec2) : ℚ :=
  let d := diamondAngle v
  if d < 2 then d else d - 4

/-- Exact model of the sort key used by the comparator of `fixVertices`:
`midsegment.angleTo(v)` with `midsegment = (centroid - midpoint2).normalized()
= (0, -1)`, i.e. the signed angle from the fixed downward direction to `v`.
A rotation by +90° turns the angle from `(0, -1)` into a standard angle. -/
def angleFromMidsegment (v : Vec2) : ℚ :=
  signedDiamond ⟨-v.y, v.x⟩

/-- Edge normals of a vertex list, as the loop at the end of `fixVertices`
computes them: for vertex `i`, the edge to vertex `(i + 1) % n`, rotated by
-90° (`(edge.y, -edge.x)`).  The source scales each edge to unit length first
(an irrational operation); the unnormalized edge is kept here, which leaves the
direction of every normal unchanged. -/
def polygonNormals (vs : List Vec2) : List Vec2 :=
  (List.range vs.length).map (fun i =>
    let va := vs.getD i ⟨0, 0⟩
    let vb := vs.getD ((i + 1) % vs.length) ⟨0, 0⟩
    let edge := Vec2.sub vb va
    ⟨edge.y, -edge.x⟩)

/-- Stored state of a `Polygon` after `fixVertices` ran: the (sorted) local
vertices, the edge normals, the centroid member, and the bounding `radius`
member. -/
structure PolygonData where
  vertices : List Vec2
  normals : List Vec2
  centroid : Vec2
  radius : ℚ
deriving DecidableEq, Repr

/-- Embeds `Polygon::fixVertices` (reached from every vertex-taking constructor
and from `setVertices`).  Steps, as in the source: (1) centroid = average of the
vertices; (2) the radius loop — the source reads
`float distance = (centroid - vertex).length(); if (distance > radius)
{ distance = radius; }`, whose branch assigns to the local `distance` (a dead
store), so `radius` keeps its initial value `0.0f`; the comparison is kept here
on squared lengths, `length` being monotone; (3) the vertices are sorted by
angle about the centroid (`std::sort` with the `angleTo` comparator, embedded as
a merge sort with the exact pseudo-angle key); (4) the edge normals are
recomputed from the sorted vertices.  The vertices are never translated. -/
def fixVertices (input : List Vec2) : PolygonData :=
  let centroid := centroidOf input
  let radius : ℚ := input.foldl
    (fun r v => if Vec2.normSq (Vec2.sub centroid v) > r * r then r else r) 0
  let sorted := input.mergeSort (fun v1 v2 =>
    decide (angleFromMidsegment (Vec2.sub v1 centroid) ≤
            angleFromMidsegment (Vec2.sub v2 centroid)))
  ⟨sorted, polygonNormals sorted, centroid, radius⟩

/-- Maximum squared distance from a point to the vertices of a list, used to
state the claimed bounding-radius property exactly (over ℚ, `radius = max
distance` is stated as `radius ^ 2 = max squared distance`, both sides being
nonnegative). -/
def maxNormSqFrom (c : Vec2) (vs : List Vec2) : ℚ :=
  vs.foldl (fun m v => max m (Vec2.normSq (Vec2.sub c v))) 0

/-! ### Narrow-phase collision (src/asteroids/physics.hpp `project`,
`satHalfTest`, the three `testCollision` overloads, `pointSegmentDistance`;
src/asteroids/core.hpp `impl::testCollision`) -/

/-- Collision manifold: penetration depth and separation normal. -/
structure CollisionManifold where
  depth : ℚ
  normal : Vec2
deriving DecidableEq, Repr

/-- Exact value of `std::numeric_limits<float>::max()`, the depth a
default-constructed manifold starts at. -/
def floatMax : ℚ := 2 ^ 128 - 2 ^ 104

/-- A default-constructed `CollisionManifold`. -/
def initialManifold : CollisionManifold := ⟨floatMax, ⟨0, 0⟩⟩

/-- A circle shape: world position and radius. -/
structure CircleShape where
  pos : Vec2
  radius : ℚ
deriving DecidableEq, Repr

/-- A polygon as the narrow phase sees it: the cached world vertices and world
normals returned by `Polygon::getWorldVertices` / `getWorldNormals`. -/
structure PolygonShape where
  worldVertices : List Vec2
  worldNormals : List Vec2
deriving DecidableEq, Repr

/-- Projection of a vertex set onto an axis (struct `Projection`). -/
structure Projection where
  min : ℚ
  max : ℚ
deriving DecidableEq, Repr

/-- Embeds `project`: seed min and max with the projection of `vertices[0]`,
then fold the remaining vertices through the branch
`if (projected < min) ... else if (projected > max) ...`.  The source indexes
`vertices[0]` unconditionally; polygons always carry at least 3 vertices, and
the empty case is given the (unreached) zero projection. -/
def project (vs : List Vec2) (normal : Vec2) : Projection :=
  match vs with
  | [] => ⟨0, 0⟩
  | v0 :: rest =>
    rest.foldl
      (fun pr v =>
        let projected := Vec2.dot normal v
        if projected < pr.min then ⟨projected, pr.max⟩
        else if projected > pr.max then ⟨pr.min, projected⟩
        else pr)
      ⟨Vec2.dot normal v0, Vec2.dot normal v0⟩

/-- Projection-overlap test of one SAT axis: the condition
`proj1.max >= proj2.min && proj2.max >= proj1.min` of the `satHalfTest` loop. -/
def overlapCond (vs1 vs2 : List Vec2) (n : Vec2) : Prop :=
  (project vs1 n).max ≥ (project vs2 n).min ∧
  (project vs2 n).max ≥ (project vs1 n).min

instance (vs1 vs2 : List Vec2) (n : Vec2) : Decidable (overlapCond vs1 vs2 n) := by
  unfold overlapCond
  infer_instance

/-- Overlap amount of one SAT axis: the expression
`std::max(0.0f, std::min(proj1.max, proj2.max) - std::max(proj1.min, proj2.min))`
(the `new_depth` of the `satHalfTest` loop). -/
def overlapAmount (vs1 vs2 : List Vec2) (n : Vec2) : ℚ :=
  max 0 (min (project vs1 n).max (project vs2 n).max -
    max (project vs1 n).min (project vs2 n).min)

/-- Embeds `satHalfTest`: walk the axis list; a separating axis returns `false`
immediately (the manifold keeping whatever was already written); an overlapping
axis computes its overlap amount and takes the axis as the manifold when the
overlap is `<=` the current depth. -/
def satHalfTest (vs1 vs2 : List Vec2) (m : CollisionManifold) :
    List Vec2 → Bool × CollisionManifold
  | [] => (true, m)
  | n :: rest =>
    if ¬ overlapCond vs1 vs2 n then (false, m)
    else
      let newDepth := overlapAmount vs1 vs2 n
      let m1 := if newDepth ≤ m.depth then CollisionManifold.mk newDepth n else m
      satHalfTest vs1 vs2 m1 rest

/-- Embeds `testCollision(Polygon&, Polygon&, CollisionManifold&)`: one SAT half
test over each polygon's own normals, threading the manifold through both. -/
def testCollisionPP (poly1 poly2 : PolygonShape) (m : CollisionManifold) :
    Bool × CollisionManifold :=
  let r1 := satHalfTest poly1.worldVertices poly2.worldVertices m poly1.worldNormals
  if r1.1 = false then (false, r1.2)
  else satHalfTest poly2.worldVertices poly1.worldVertices r1.2 poly2.worldNormals

/-- Embeds `testCollision(Circle&, Circle&, CollisionManifold&)`.  `len` stands
for `sf::Vector2f::length` (a square root, the only irrational operation),
passed into the embedding as a parameter.  A zero direction vector takes the
`(0, 1)` branch and is never handed to `normalized()`. -/
def testCollisionCC (len : Vec2 → ℚ) (c1 c2 : CircleShape)
    (m : CollisionManifold) : Bool × CollisionManifold :=
  let totalRadius := c1.radius + c2.radius
  let dir := Vec2.sub c2.pos c1.pos
  let l := len dir
  if totalRadius > l then
    let normal : Vec2 :=
      if dir.x = 0 ∧ dir.y = 0 then ⟨0, 1⟩ else ⟨dir.x / l, dir.y / l⟩
    (true, ⟨totalRadius - l, normal⟩)
  else (false, m)

/-- Embeds `pointSegmentDistance`: closest point of a segment to a point, and
the distance to it (through the abstract `len`). -/
def pointSegmentDistance (len : Vec2 → ℚ) (p v1 v2 : Vec2) : ℚ × Vec2 :=
  let pToV1 := Vec2.sub p v1
  let v1ToV2 := Vec2.sub v2 v1
  let proj := Vec2.dot pToV1 v1ToV2
  let lengthSq := Vec2.normSq v1ToV2
  let d := proj / lengthSq
  let cp :=
    if d ≤ 0 then v1
    else if d ≥ 1 then v2
    else Vec2.add v1 ⟨v1ToV2.x * d, v1ToV2.y * d⟩
  (len (Vec2.sub p cp), cp)

/-- Embeds `testCollision(Polygon&, Circle&, CollisionManifold&)`: track the
closest polygon edge to the circle center, then compare against the radius. -/
def testCollisionPC (len : Vec2 → ℚ) (poly : PolygonShape) (circle : CircleShape)
    (m : CollisionManifold) : Bool × CollisionManifold :=
  let vs := poly.worldVertices
  let m1 := (List.range vs.length).foldl
    (fun acc i =>
      let v1 := vs.getD i ⟨0, 0⟩
      let v2 := vs.getD ((i + 1) % vs.length) ⟨0, 0⟩
      let dist := (pointSegmentDistance len circle.pos v1 v2).1
      if dist < acc.depth then
        CollisionManifold.mk dist (poly.worldNormals.getD i ⟨0, 0⟩)
      else acc)
    m
  if m1.depth < circle.radius then (true, ⟨circle.radius - m1.depth, m1.normal⟩)
  else (false, m1)

/-- A shape value: circle or convex polygon (`ShapeEnum` dispatch). -/
inductive Shape where
  | circle (c : CircleShape)
  | polygon (p : PolygonShape)
deriving DecidableEq, Repr

/-- Embeds `impl::testCollision(Shape&, Shape&, CollisionManifold&)` from
src/asteroids/core.hpp: the 2×2 dispatch on the pair of shape kinds.  Note the
circle/polygon case calls the same `testCollision(Polygon&, Circle&, ...)`
overload with the same argument roles as the polygon/circle case. -/
def testCollision (len : Vec2 → ℚ) :
    Shape → Shape → CollisionManifold → Bool × CollisionManifold
  | .polygon p1, .polygon p2, m => testCollisionPP p1 p2 m
  | .polygon p, .circle c, m => testCollisionPC len p c m
  | .circle c, .polygon p, m => testCollisionPC len p c m
  | .circle c1, .circle c2, m => testCollisionCC len c1 c2 m

/-! ## Association-list helper lemmas -/

theorem lookup_setPair_self {β : Type} (l : List (Nat × β)) (k : Nat) (v : β) :
    (setPair l k v).lookup k = some v := by
  induction l with
  | nil => simp [setPair, List.lookup]
  | cons p rest ih =>
    obtain ⟨a, b⟩ := p
    by_cases h : a = k
    · simp [setPair, h, List.lookup]
    · have hk : (k == a) = false := by simp [Ne.symm h]
      simpa [setPair, h, List.lookup, hk] using ih

theorem lookup_setPair_ne {β : Type} (l : List (Nat × β)) (k k' : Nat) (v : β)
    (hne : k' ≠ k) : (setPair l k v).lookup k' = l.lookup k' := by
  have hkk : (k' == k) = false := by simp [hne]
  induction l with
  | nil => simp [setPair, List.lookup, hkk]
  | cons p rest ih =>
    obtain ⟨a, b⟩ := p
    by_cases h : a = k
    · subst h
      have hk : (k' == a) = false := by simp [hne]
      simp [setPair, List.lookup, hk]
    · cases hk : (k' == a) with
      | true => simp [setPair, h, List.lookup, hk]
      | false => simpa [setPair, h, List.lookup, hk] using ih

theorem lookup_filter_ne {β : Type} (l : List (Nat × β)) (k : Nat) :
    (l.filter (fun p => p.1 ≠ k)).lookup k = none := by
  induction l with
  | nil => rfl
  | cons p rest ih =>
    obtain ⟨a, b⟩ := p
    by_cases hk : a = k
    · simpa [List.filter, hk] using ih
    · have hk' : (k == a) = false := by simp [Ne.symm hk]
      simpa [List.filter, hk, List.lookup, hk'] using ih

/-! ## Theorems about the MessageBuffer bounds check -/

/-- C9: for a `MessageBuffer` of size 0, `operator[]` never raises the
"Index out of bounds" fatal error for any `size_t` index, because the bound
`size - 1` is computed in unsigned arithmetic and wraps to `2^64 - 1`; for a
positive size the fatal error is raised exactly when `index >= size`. -/
theorem messageBufferBoundsCheckUnderflow :
    (∀ index : Nat, index < sizeTMod → messageBufferIndexFatal 0 index = false)
    ∧ (∀ size index : Nat, 0 < size → size < sizeTMod →
        (messageBufferIndexFatal size index = true ↔ size ≤ index)) := by
  have hM : sizeTMod = 18446744073709551616 := by norm_num [sizeTMod]
  constructor
  · intro index hidx
    rw [hM] at hidx
    simp only [messageBufferIndexFatal, hM, decide_eq_false_iff_not]
    omega
  · intro size index hpos hlt
    rw [hM] at hlt
    simp only [messageBufferIndexFatal, hM, decide_eq_true_eq]
    omega

/-- Witness for C9: a buffer of size 0 never faults at index 5, and a buffer of
size 7 faults at index 7. -/
theorem messageBufferBoundsCheckUnderflow_witness :
    messageBufferIndexFatal 0 5 = false ∧
    (messageBufferIndexFatal 7 7 = true ↔ 7 ≤ 7) :=
  ⟨messageBufferBoundsCheckUnderflow.1 5 (by norm_num [sizeTMod]),
   messageBufferBoundsCheckUnderflow.2 7 7 (by norm_num)
     (by norm_num [sizeTMod])⟩

/-! ## Theorems about connection warnings -/

theorem lookupWarnings_setWarnings (cs : Connections) (conn w : Nat) :
    lookupWarnings (setWarnings cs conn w) conn = some w :=
  lookup_setPair_self cs conn w

theorem lookupWarnings_erase (cs : Connections) (conn : Nat) :
    lookupWarnings (eraseConnection cs conn) conn = none :=
  lookup_filter_ne cs conn

theorem warningsOf_setWarnings (cs : Connections) (conn w : Nat) :
    warningsOf (setWarnings cs conn w) conn = w := by
  have h := lookupWarnings_setWarnings cs conn w
  unfold lookupWarnings at h
  unfold warningsOf
  rw [h]
  rfl

/-- C5: a deserialization failure in the receive loop adds a warning to the
connection; the connection stays in the table (with the incremented counter)
as long as the counter does not exceed the threshold `maxWarnings = 5`, and is
forcibly disconnected exactly when the incremented counter exceeds it.  A
successful deserialization leaves the table untouched. -/
theorem deserializationWarningEviction :
    (∀ (cs : Connections) (conn : Nat), receiveMessageStep cs conn true = cs)
    ∧ (∀ (cs : Connections) (conn : Nat),
        warningsOf cs conn + 1 ≤ maxWarnings →
        lookupWarnings (receiveMessageStep cs conn false) conn =
          some (warningsOf cs conn + 1))
    ∧ (∀ (cs : Connections) (conn : Nat),
        maxWarnings < warningsOf cs conn + 1 →
        lookupWarnings (receiveMessageStep cs conn false) conn = none) := by
  refine ⟨fun cs conn => rfl, fun cs conn h => ?_, fun cs conn h => ?_⟩
  · show lookupWarnings (connectionAddWarning cs conn) conn = _
    simp only [connectionAddWarning, warningsOf_setWarnings]
    rw [if_neg (by omega)]
    exact lookupWarnings_setWarnings cs conn _
  · show lookupWarnings (connectionAddWarning cs conn) conn = _
    simp only [connectionAddWarning, warningsOf_setWarnings]
    rw [if_pos (by omega)]
    exact lookupWarnings_erase _ conn

/-- Witness for C5 at a table holding connection 1 with 2 warnings and
connection 2 with 5 warnings. -/
theorem deserializationWarningEviction_witness :
    receiveMessageStep [(1, 2), (2, 5)] 1 true = [(1, 2), (2, 5)] ∧
    lookupWarnings (receiveMessageStep [(1, 2), (2, 5)] 1 false) 1 =
      some (warningsOf [(1, 2), (2, 5)] 1 + 1) ∧
    lookupWarnings (receiveMessageStep [(1, 2), (2, 5)] 2 false) 2 = none :=
  ⟨deserializationWarningEviction.1 [(1, 2), (2, 5)] 1,
   deserializationWarningEviction.2.1 [(1, 2), (2, 5)] 1 (by decide),
   deserializationWarningEviction.2.2 [(1, 2), (2, 5)] 2 (by decide)⟩

/-! ## Theorems about the client reorder buffer -/

theorem unreliableFragmentStep_queue (s : ClientState) (t : Nat) (f : Fragment) :
    (unreliableFragmentStep s t f).snapshotsQueue = s.snapshotsQueue := by
  unfold unreliableFragmentStep
  split <;> rfl

theorem runFragments_unreliable_queue (frags : List Fragment) :
    ∀ (s : ClientState) (start : Nat),
      (runFragments unreliableFragmentStep s start frags).snapshotsQueue =
        s.snapshotsQueue := by
  induction frags with
  | nil => intro s start; rfl
  | cons f rest ih =>
    intro s start
    rw [runFragments, ih, unreliableFragmentStep_queue]

/-- C6: a received unreliable snapshot fragment whose tick number is below the
client's current server tick, or whose tick has no entry in the pending
snapshot map, is silently dropped: its bytes are skipped and the client state is
completely unchanged.  Moreover the unreliable path never modifies the pending
tick queue at all. -/
theorem lateUnreliableFragmentDropped :
    (∀ (s : ClientState) (t : Nat) (f : Fragment),
        t < s.currentServerTick ∨ findSnapshot s.snapshots t = none →
        unreliableFragmentStep s t f = s)
    ∧ (∀ (s : ClientState) (start : Nat) (frags : List Fragment),
        (runFragments unreliableFragmentStep s start frags).snapshotsQueue =
          s.snapshotsQueue) := by
  constructor
  · intro s t f h
    unfold unreliableFragmentStep
    rw [if_pos h]
  · intro s start frags
    exact runFragments_unreliable_queue frags s start

/-- Witness for C6: a fragment for tick 3 arriving while the client is already
at server tick 5 changes nothing. -/
theorem lateUnreliableFragmentDropped_witness :
    unreliableFragmentStep ⟨[], [], 5, false⟩ 3 ⟨7, [1, 2]⟩ =
      (⟨[], [], 5, false⟩ : ClientState) ∧
    (runFragments unreliableFragmentStep ⟨[], [], 5, false⟩ 3
        [⟨7, [1, 2]⟩]).snapshotsQueue = ([] : List Nat) :=
  ⟨lateUnreliableFragmentDropped.1 ⟨[], [], 5, false⟩ 3 ⟨7, [1, 2]⟩
      (Or.inl (by norm_num)),
   lateUnreliableFragmentDropped.2 ⟨[], [], 5, false⟩ 3 [⟨7, [1, 2]⟩]⟩

/-! ## Theorems about desync recovery (C1) -/

theorem reliableFragmentStep_sent (s : ClientState) (t : Nat) (f : Fragment) :
    (reliableFragmentStep s t f).sentFullSnapshotRequest =
      s.sentFullSnapshotRequest := rfl

theorem unreliableFragmentStep_sent (s : ClientState) (t : Nat) (f : Fragment) :
    (unreliableFragmentStep s t f).sentFullSnapshotRequest =
      s.sentFullSnapshotRequest := by
  unfold unreliableFragmentStep
  split <;> rfl

theorem runFragments_sent (step : ClientState → Nat → Fragment → ClientState)
    (hstep : ∀ s t f, (step s t f).sentFullSnapshotRequest =
      s.sentFullSnapshotRequest) (frags : List Fragment) :
    ∀ (s : ClientState) (start : Nat),
      (runFragments step s start frags).sentFullSnapshotRequest =
        s.sentFullSnapshotRequest := by
  induction frags with
  | nil => intro s start; rfl
  | cons f rest ih =>
    intro s start
    rw [runFragments, ih, hstep]

theorem clientApplyQueuedSnapshot_sent (s : ClientState) :
    (clientApplyQueuedSnapshot s).sentFullSnapshotRequest =
      s.sentFullSnapshotRequest := by
  unfold clientApplyQueuedSnapshot
  cases hq : s.snapshotsQueue with
  | nil => rfl
  | cons t rest => rfl

theorem clientBeginTick_sends (s : ClientState)
    (h1 : s.snapshots.length > defaultMaxDsyncBeforeFullSnapshot)
    (h2 : s.sentFullSnapshotRequest = false) :
    (clientBeginTick s).2 = 1 ∧
    (clientBeginTick s).1.sentFullSnapshotRequest = true := by
  unfold clientBeginTick
  rw [if_pos ⟨h1, h2⟩]
  exact ⟨rfl, clientApplyQueuedSnapshot_sent _⟩

theorem clientBeginTick_quiet (s : ClientState)
    (h : ¬ (s.snapshots.length > defaultMaxDsyncBeforeFullSnapshot ∧
            s.sentFullSnapshotRequest = false)) :
    (clientBeginTick s).2 = 0 ∧
    (clientBeginTick s).1.sentFullSnapshotRequest = s.sentFullSnapshotRequest := by
  unfold clientBeginTick
  rw [if_neg h]
  exact ⟨rfl, clientApplyQueuedSnapshot_sent _⟩

theorem requestAllowance_true : requestAllowance true = 0 := rfl

theorem requestAllowance_false : requestAllowance false = 1 := rfl

theorem clientRun_request_bound (evs : List ClientEvent) :
    ∀ s : ClientState,
      (clientRun s evs).2 ≤
        countFullSnapshots evs + requestAllowance s.sentFullSnapshotRequest := by
  induction evs with
  | nil =>
    intro s
    simp [clientRun, countFullSnapshots]
  | cons e rest ih =>
    intro s
    rw [clientRun]
    cases e with
    | beginTick =>
      have hcount : countFullSnapshots (ClientEvent.beginTick :: rest) =
          countFullSnapshots rest := by
        simp [countFullSnapshots, isFullSnapshotEvent]
      by_cases hc : s.snapshots.length > defaultMaxDsyncBeforeFullSnapshot ∧
          s.sentFullSnapshotRequest = false
      · have hs := clientBeginTick_sends s hc.1 hc.2
        have hrest := ih (clientBeginTick s).1
        rw [hs.2, requestAllowance_true] at hrest
        simp only [clientStep, hs.1, hcount, hc.2, requestAllowance_false]
        omega
      · have hs := clientBeginTick_quiet s hc
        have hrest := ih (clientBeginTick s).1
        rw [hs.2] at hrest
        simp only [clientStep, hs.1, hcount]
        omega
    | recvReliable start frags =>
      have hsent := runFragments_sent reliableFragmentStep
        reliableFragmentStep_sent frags s start
      have hrest := ih (runFragments reliableFragmentStep s start frags)
      rw [hsent] at hrest
      have hcount : countFullSnapshots (ClientEvent.recvReliable start frags :: rest) =
          countFullSnapshots rest := by
        simp [countFullSnapshots, isFullSnapshotEvent]
      simp only [clientStep, hcount]
      omega
    | recvUnreliable start frags =>
      have hsent := runFragments_sent unreliableFragmentStep
        unreliableFragmentStep_sent frags s start
      have hrest := ih (runFragments unreliableFragmentStep s start frags)
      rw [hsent] at hrest
      have hcount : countFullSnapshots (ClientEvent.recvUnreliable start frags :: rest) =
          countFullSnapshots rest := by
        simp [countFullSnapshots, isFullSnapshotEvent]
      simp only [clientStep, hcount]
      omega
    | recvFullSnapshot =>
      have hrest := ih (clientRecvFullSnapshot s)
      have hsent : (clientRecvFullSnapshot s).sentFullSnapshotRequest = false := rfl
      rw [hsent, requestAllowance_false] at hrest
      have hcount : countFullSnapshots (ClientEvent.recvFullSnapshot :: rest) =
          countFullSnapshots rest + 1 := by
        simp [countFullSnapshots, isFullSnapshotEvent]
      simp only [clientStep, hcount]
      cases hb : s.sentFullSnapshotRequest <;>
        simp only [requestAllowance_true, requestAllowance_false] <;> omega

/-- C1: desync recovery of `ClientInterface`.  (i) When the pending snapshot map
has grown past the threshold of 30 while no full-snapshot request is
outstanding, `beginTick` sends exactly one `MESSAGE_HEADER_REQUEST_SNAPSHOT_FULL`
message and latches the request flag.  (ii) While the flag is latched, no event
other than the receipt of a `MESSAGE_HEADER_SNAPSHOT_FULL` message sends a
request or clears the flag.  (iii) Receiving the full snapshot empties the
pending queue and the snapshot map and re-arms the request.  (iv) Consequently,
over any run, the number of requests sent is at most the number of full
snapshots received plus one. -/
theorem desyncRecoveryRequestProtocol :
    (∀ s : ClientState,
        s.snapshots.length > defaultMaxDsyncBeforeFullSnapshot →
        s.sentFullSnapshotRequest = false →
        (clientBeginTick s).2 = 1 ∧
        (clientBeginTick s).1.sentFullSnapshotRequest = true)
    ∧ (∀ (s : ClientState) (e : ClientEvent),
        s.sentFullSnapshotRequest = true → e ≠ ClientEvent.recvFullSnapshot →
        (clientStep s e).2 = 0 ∧
        (clientStep s e).1.sentFullSnapshotRequest = true)
    ∧ (∀ s : ClientState,
        (clientRecvFullSnapshot s).snapshots = [] ∧
        (clientRecvFullSnapshot s).snapshotsQueue = [] ∧
        (clientRecvFullSnapshot s).sentFullSnapshotRequest = false)
    ∧ (∀ (s : ClientState) (evs : List ClientEvent),
        (clientRun s evs).2 ≤
          countFullSnapshots evs +
            requestAllowance s.sentFullSnapshotRequest) := by
  refine ⟨fun s h1 h2 => clientBeginTick_sends s h1 h2,
          fun s e hsent hne => ?_,
          fun s => ⟨rfl, rfl, rfl⟩,
          fun s evs => clientRun_request_bound evs s⟩
  cases e with
  | beginTick =>
    have h := clientBeginTick_quiet s (by
      intro hc
      rw [hsent] at hc
      exact absurd hc.2 (by simp))
    exact ⟨h.1, h.2.trans hsent⟩
  | recvReliable start frags =>
    refine ⟨rfl, ?_⟩
    rw [show (clientStep s (ClientEvent.recvReliable start frags)).1 =
        runFragments reliableFragmentStep s start frags from rfl]
    rw [runFragments_sent reliableFragmentStep reliableFragmentStep_sent
      frags s start]
    exact hsent
  | recvUnreliable start frags =>
    refine ⟨rfl, ?_⟩
    rw [show (clientStep s (ClientEvent.recvUnreliable start frags)).1 =
        runFragments unreliableFragmentStep s start frags from rfl]
    rw [runFragments_sent unreliableFragmentStep unreliableFragmentStep_sent
      frags s start]
    exact hsent
  | recvFullSnapshot => exact absurd rfl hne

/-- Witness for C1 at a client state holding 31 buffered ticks, no request
outstanding. -/
theorem desyncRecoveryRequestProtocol_witness :
    (clientBeginTick
        ⟨(List.range 31).map (fun t => (t, emptySnapshot)), [], 0, false⟩).2 = 1 ∧
    (clientBeginTick
        ⟨(List.range 31).map (fun t => (t, emptySnapshot)), [], 0,
          false⟩).1.sentFullSnapshotRequest = true :=
  desyncRecoveryRequestProtocol.1 _
    (by simp [defaultMaxDsyncBeforeFullSnapshot]) rfl

/-! ## Theorems about the generation purge (C3) -/

theorem lookupEntity_purge_append (w : EntityWorld) (i g : Nat) :
    lookupEntity (removeEntity w i ++ [⟨i, g, []⟩]) i = some ⟨i, g, []⟩ := by
  induction w with
  | nil => simp [lookupEntity, removeEntity, List.find?]
  | cons r rest ih =>
    unfold removeEntity at ih ⊢
    rw [List.filter_cons]
    by_cases h : r.idx = i
    · rw [if_neg (by simp [h])]
      exact ih
    · rw [if_pos (by simp [h])]
      have hb : (r.idx == i) = false := by simp [h]
      unfold lookupEntity at ih ⊢
      rw [List.cons_append]
      simp only [List.find?_cons, hb]
      exact ih

theorem lookupEntity_writeComponents (w : EntityWorld) (i : Nat)
    (cvs : List (Nat × Nat)) :
    lookupEntity (writeComponents w i cvs) i =
      (lookupEntity w i).map
        (fun r => ⟨r.idx, r.gen, buildComponents r.comps cvs⟩) := by
  induction w with
  | nil => simp [lookupEntity, writeComponents, List.find?]
  | cons r rest ih =>
    rw [show writeComponents (r :: rest) i cvs =
        (if r.idx = i then EntityRec.mk r.idx r.gen (buildComponents r.comps cvs)
         else r) :: writeComponents rest i cvs from rfl]
    unfold lookupEntity at ih ⊢
    by_cases h : r.idx = i
    · rw [if_pos h]
      have hb : (r.idx == i) = true := by simp [h]
      simp only [List.find?_cons, hb]
      rfl
    · rw [if_neg h]
      have hb : (r.idx == i) = false := by simp [h]
      simp only [List.find?_cons, hb]
      exact ih

theorem lookup_buildComponents_not_sent (cvs : List (Nat × Nat)) :
    ∀ (start : List (Nat × Nat)) (c : Nat), c ∉ cvs.map Prod.fst →
      (buildComponents start cvs).lookup c = start.lookup c := by
  induction cvs with
  | nil => intro start c _; rfl
  | cons cv rest ih =>
    intro start c hc
    rw [List.map_cons] at hc
    have hc1 : c ≠ cv.1 := by
      intro h
      exact hc (by rw [h]; exact List.mem_cons_self cv.1 _)
    have hc2 : c ∉ rest.map Prod.fst := fun h => hc (List.mem_cons_of_mem _ h)
    rw [show buildComponents start (cv :: rest) =
        buildComponents (setComponent start cv.1 cv.2) rest from rfl]
    rw [ih (setComponent start cv.1 cv.2) c hc2]
    exact lookup_setPair_ne start cv.1 c cv.2 hc1

/-- C3: applying a received component snapshot to an entity whose locally
tracked copy carries a different generation purges the local copy and recreates
the entity: afterwards the entity at that index carries the incoming generation
and exactly the component values deserialized from the snapshot, built from an
empty component set — in particular any component the snapshot did not resend is
gone, so the two copies are never silently merged. -/
theorem generationMismatchPurgesAndRecreates (w : EntityWorld) (i g : Nat)
    (r : EntityRec) (cvs : List (Nat × Nat))
    (halive : lookupEntity w i = some r) (hgen : r.gen ≠ g) :
    lookupEntity (applyEntityComponentUpdate w i g cvs) i =
      some ⟨i, g, buildComponents [] cvs⟩
    ∧ (∀ c : Nat, c ∉ cvs.map Prod.fst →
        (buildComponents [] cvs).lookup c = none) := by
  constructor
  · have hens : ensureEntity w i g = removeEntity w i ++ [⟨i, g, []⟩] := by
      simp only [ensureEntity, halive]
      rw [if_neg hgen]
    unfold applyEntityComponentUpdate
    rw [hens, lookupEntity_writeComponents, lookupEntity_purge_append]
    rfl
  · intro c hc
    rw [lookup_buildComponents_not_sent cvs [] c hc]
    rfl

/-- Witness for C3: entity index 1 is tracked locally at generation 3 carrying
component 10 = 99; an incoming update for generation 5 writing component 20 = 7
recreates the entity with only component 20. -/
theorem generationMismatchPurgesAndRecreates_witness :
    lookupEntity
        (applyEntityComponentUpdate [⟨1, 3, [(10, 99)]⟩] 1 5 [(20, 7)]) 1 =
      some ⟨1, 5, buildComponents [] [(20, 7)]⟩
    ∧ (∀ c : Nat, c ∉ ([(20, 7)] : List (Nat × Nat)).map Prod.fst →
        (buildComponents [] [(20, 7)]).lookup c = none) :=
  generationMismatchPurgesAndRecreates [⟨1, 3, [(10, 99)]⟩] 1 5 ⟨1, 3, [(10, 99)]⟩
    [(20, 7)] (by decide) (by decide)

/-! ## Theorems about the coincident-circle collision (C10) -/

/-- C10: two circles at identical positions with a positive radius sum collide
with manifold normal exactly `(0, 1)` and depth equal to the radius sum; the
zero-length direction vector takes the special-case branch and is never passed
to `normalized()`, so no division by zero occurs. -/
theorem coincidentCirclesCollision (len : Vec2 → ℚ) (hlen0 : len ⟨0, 0⟩ = 0)
    (p : Vec2) (r1 r2 : ℚ) (hr : 0 < r1 + r2) :
    testCollisionCC len ⟨p, r1⟩ ⟨p, r2⟩ initialManifold =
      (true, ⟨r1 + r2, ⟨0, 1⟩⟩) := by
  have hdir : Vec2.sub p p = (⟨0, 0⟩ : Vec2) := by simp [Vec2.sub]
  simp only [testCollisionCC, hdir, hlen0]
  rw [if_pos hr]
  norm_num

/-- Witness for C10 at position (5, 5) with radii 3 and 4. -/
theorem coincidentCirclesCollision_witness :
    testCollisionCC (fun _ => 0) ⟨⟨5, 5⟩, 3⟩ ⟨⟨5, 5⟩, 4⟩ initialManifold =
      (true, ⟨(3 : ℚ) + 4, ⟨0, 1⟩⟩) :=
  coincidentCirclesCollision (fun _ => 0) rfl ⟨5, 5⟩ 3 4 (by norm_num)

/-! ## Theorems about the snapshot application order (C2) -/

theorem deserArchetypeEntities_rank (mk : Nat → Nat → NetOp) (k : Nat)
    (hmk : ∀ e c, (mk e c).rank = k) (idList : List Nat) :
    ∀ (n : Nat) (s : ByteStream) (ops : List NetOp) (s' : ByteStream),
      deserArchetypeEntities mk idList n s = some (ops, s') →
      ∀ op ∈ ops, op.rank = k := by
  intro n
  induction n with
  | zero =>
    intro s ops s' h op hop
    unfold deserArchetypeEntities at h
    simp only [Option.some.injEq, Prod.mk.injEq] at h
    rw [← h.1] at hop
    exact absurd hop (List.not_mem_nil op)
  | succ n ih =>
    intro s ops s' h op hop
    unfold deserArchetypeEntities at h
    cases h1 : readValue s with
    | none => rw [h1] at h; exact Option.noConfusion h
    | some vs =>
      obtain ⟨e, s1⟩ := vs
      simp only [h1] at h
      cases h2 : deserArchetypeEntities mk idList n s1 with
      | none => rw [h2] at h; exact Option.noConfusion h
      | some os =>
        obtain ⟨ops1, s2⟩ := os
        simp only [h2, Option.some.injEq, Prod.mk.injEq] at h
        rw [← h.1] at hop
        rcases List.mem_append.mp hop with hmem | hmem
        · obtain ⟨c, _, rfl⟩ := List.mem_map.mp hmem
          exact hmk e c
        · exact ih s1 ops1 s2 h2 op hmem

theorem deserArchetypes_rank (mk : Nat → Nat → NetOp) (k : Nat)
    (hmk : ∀ e c, (mk e c).rank = k) :
    ∀ (n : Nat) (s : ByteStream) (ops : List NetOp) (s' : ByteStream),
      deserArchetypes mk n s = some (ops, s') →
      ∀ op ∈ ops, op.rank = k := by
  intro n
  induction n with
  | zero =>
    intro s ops s' h op hop
    unfold deserArchetypes at h
    simp only [Option.some.injEq, Prod.mk.injEq] at h
    rw [← h.1] at hop
    exact absurd hop (List.not_mem_nil op)
  | succ n ih =>
    intro s ops s' h op hop
    unfold deserArchetypes at h
    cases h1 : readValue s with
    | none => rw [h1] at h; exact Option.noConfusion h
    | some vs =>
      obtain ⟨idListSize, s1⟩ := vs
      simp only [h1] at h
      cases h2 : readValues idListSize s1 with
      | none => rw [h2] at h; exact Option.noConfusion h
      | some vs2 =>
        obtain ⟨idList, s2⟩ := vs2
        simp only [h2] at h
        cases h3 : readValue s2 with
        | none => rw [h3] at h; exact Option.noConfusion h
        | some vs3 =>
          obtain ⟨entityCount, s3⟩ := vs3
          simp only [h3] at h
          cases h4 : deserArchetypeEntities mk idList entityCount s3 with
          | none => rw [h4] at h; exact Option.noConfusion h
          | some vs4 =>
            obtain ⟨ops1, s4⟩ := vs4
            simp only [h4] at h
            cases h5 : deserArchetypes mk n s4 with
            | none => rw [h5] at h; exact Option.noConfusion h
            | some vs5 =>
              obtain ⟨ops2, s5⟩ := vs5
              simp only [h5, Option.some.injEq, Prod.mk.injEq] at h
              rw [← h.1] at hop
              rcases List.mem_append.mp hop with hmem | hmem
              · exact deserArchetypeEntities_rank mk k hmk idList
                  entityCount s3 ops1 s4 h4 op hmem
              · exact ih s4 ops2 s5 h5 op hmem

theorem deserArchetypeSection_rank (mk : Nat → Nat → NetOp) (k : Nat)
    (hmk : ∀ e c, (mk e c).rank = k) (s : ByteStream) (ops : List NetOp)
    (s' : ByteStream) (h : deserArchetypeSection mk s = some (ops, s')) :
    ∀ op ∈ ops, op.rank = k := by
  unfold deserArchetypeSection at h
  cases h1 : readValue s with
  | none => rw [h1] at h; exact Option.noConfusion h
  | some vs =>
    obtain ⟨archetypeCount, s1⟩ := vs
    simp only [h1] at h
    exact deserArchetypes_rank mk k hmk archetypeCount s1 ops s' h

theorem deserEntityList_rank (alive : Nat → Bool) (mk : Nat → NetOp) (k : Nat)
    (hmk : ∀ e, (mk e).rank = k) :
    ∀ (n : Nat) (s : ByteStream) (ops : List NetOp) (s' : ByteStream),
      deserEntityList alive mk n s = some (ops, s') →
      ∀ op ∈ ops, op.rank = k := by
  intro n
  induction n with
  | zero =>
    intro s ops s' h op hop
    unfold deserEntityList at h
    simp only [Option.some.injEq, Prod.mk.injEq] at h
    rw [← h.1] at hop
    exact absurd hop (List.not_mem_nil op)
  | succ n ih =>
    intro s ops s' h op hop
    unfold deserEntityList at h
    cases h1 : readValue s with
    | none => rw [h1] at h; exact Option.noConfusion h
    | some vs =>
      obtain ⟨e, s1⟩ := vs
      simp only [h1] at h
      cases h2 : deserEntityList alive mk n s1 with
      | none => rw [h2] at h; exact Option.noConfusion h
      | some os =>
        obtain ⟨ops1, s2⟩ := os
        simp only [h2, Option.some.injEq, Prod.mk.injEq] at h
        rw [← h.1] at hop
        rcases List.mem_append.mp hop with hmem | hmem
        · by_cases ha : alive e = true
          · rw [if_pos ha] at hmem
            rw [List.mem_singleton.mp hmem]
            exact hmk e
          · rw [if_neg ha] at hmem
            exact absurd hmem (List.not_mem_nil op)
        · exact ih s1 ops1 s2 h2 op hmem

theorem deserEntitySection_rank (alive : Nat → Bool) (mk : Nat → NetOp) (k : Nat)
    (hmk : ∀ e, (mk e).rank = k) (s : ByteStream) (ops : List NetOp)
    (s' : ByteStream) (h : deserEntitySection alive mk s = some (ops, s')) :
    ∀ op ∈ ops, op.rank = k := by
  unfold deserEntitySection at h
  cases h1 : readValue s with
  | none => rw [h1] at h; exact Option.noConfusion h
  | some vs =>
    obtain ⟨count, s1⟩ := vs
    simp only [h1] at h
    exact deserEntityList_rank alive mk k hmk count s1 ops s' h

theorem deserComponentEntities_rank (idList : List Nat) :
    ∀ (n : Nat) (s : ByteStream) (ops : List NetOp) (s' : ByteStream),
      deserComponentEntities idList n s = some (ops, s') →
      ∀ op ∈ ops, op.rank = 7 := by
  intro n
  induction n with
  | zero =>
    intro s ops s' h op hop
    unfold deserComponentEntities at h
    simp only [Option.some.injEq, Prod.mk.injEq] at h
    rw [← h.1] at hop
    exact absurd hop (List.not_mem_nil op)
  | succ n ih =>
    intro s ops s' h op hop
    unfold deserComponentEntities at h
    cases h1 : readValue s with
    | none => rw [h1] at h; exact Option.noConfusion h
    | some vs =>
      obtain ⟨e, s1⟩ := vs
      simp only [h1] at h
      cases h2 : readValues idList.length s1 with
      | none => rw [h2] at h; exact Option.noConfusion h
      | some vs2 =>
        obtain ⟨_, s2⟩ := vs2
        simp only [h2] at h
        cases h3 : deserComponentEntities idList n s2 with
        | none => rw [h3] at h; exact Option.noConfusion h
        | some os =>
          obtain ⟨ops1, s3⟩ := os
          simp only [h3, Option.some.injEq, Prod.mk.injEq] at h
          rw [← h.1] at hop
          rcases List.mem_append.mp hop with hmem | hmem
          · obtain ⟨c, _, rfl⟩ := List.mem_map.mp hmem
            rfl
          · exact ih s2 ops1 s3 h3 op hmem

theorem deserComponentArchetypes_rank :
    ∀ (n : Nat) (s : ByteStream) (ops : List NetOp) (s' : ByteStream),
      deserComponentArchetypes n s = some (ops, s') →
      ∀ op ∈ ops, op.rank = 7 := by
  intro n
  induction n with
  | zero =>
    intro s ops s' h op hop
    unfold deserComponentArchetypes at h
    simp only [Option.some.injEq, Prod.mk.injEq] at h
    rw [← h.1] at hop
    exact absurd hop (List.not_mem_nil op)
  | succ n ih =>
    intro s ops s' h op hop
    unfold deserComponentArchetypes at h
    cases h1 : readValue s with
    | none => rw [h1] at h; exact Option.noConfusion h
    | some vs =>
      obtain ⟨idListSize, s1⟩ := vs
      simp only [h1] at h
      cases h2 : readValues idListSize s1 with
      | none => rw [h2] at h; exact Option.noConfusion h
      | some vs2 =>
        obtain ⟨idList, s2⟩ := vs2
        simp only [h2] at h
        cases h3 : readValue s2 with
        | none => rw [h3] at h; exact Option.noConfusion h
        | some vs3 =>
          obtain ⟨entityCount, s3⟩ := vs3
          simp only [h3] at h
          cases h4 : deserComponentEntities idList entityCount s3 with
          | none => rw [h4] at h; exact Option.noConfusion h
          | some vs4 =>
            obtain ⟨ops1, s4⟩ := vs4
            simp only [h4] at h
            cases h5 : deserComponentArchetypes n s4 with
            | none => rw [h5] at h; exact Option.noConfusion h
            | some vs5 =>
              obtain ⟨ops2, s5⟩ := vs5
              simp only [h5, Option.some.injEq, Prod.mk.injEq] at h
              rw [← h.1] at hop
              rcases List.mem_append.mp hop with hmem | hmem
              · exact deserComponentEntities_rank idList entityCount s3
                  ops1 s4 h4 op hmem
              · exact ih s4 ops2 s5 h5 op hmem

theorem deserializeComponentSnapshot_rank (s : ByteStream) (ops : List NetOp)
    (s' : ByteStream) (h : deserializeComponentSnapshot s = some (ops, s')) :
    ∀ op ∈ ops, op.rank = 7 := by
  unfold deserializeComponentSnapshot at h
  cases h1 : readValue s with
  | none => rw [h1] at h; exact Option.noConfusion h
  | some vs =>
    obtain ⟨archetypeCount, s1⟩ := vs
    simp only [h1] at h
    exact deserComponentArchetypes_rank archetypeCount s1 ops s' h

theorem deserShapeList_rank :
    ∀ (n : Nat) (s : ByteStream) (ops : List NetOp) (s' : ByteStream),
      deserShapeList n s = some (ops, s') → ∀ op ∈ ops, op.rank = 1 := by
  intro n
  induction n with
  | zero =>
    intro s ops s' h op hop
    unfold deserShapeList at h
    simp only [Option.some.injEq, Prod.mk.injEq] at h
    rw [← h.1] at hop
    exact absurd hop (List.not_mem_nil op)
  | succ n ih =>
    intro s ops s' h op hop
    unfold deserShapeList at h
    cases h1 : readValue s with
    | none => rw [h1] at h; exact Option.noConfusion h
    | some vs =>
      obtain ⟨shapeId, s1⟩ := vs
      simp only [h1] at h
      cases h2 : readValue s1 with
      | none => rw [h2] at h; exact Option.noConfusion h
      | some vs2 =>
        obtain ⟨payload, s2⟩ := vs2
        simp only [h2] at h
        cases h3 : deserShapeList n s2 with
        | none => rw [h3] at h; exact Option.noConfusion h
        | some os =>
          obtain ⟨ops1, s3⟩ := os
          simp only [h3, Option.some.injEq, Prod.mk.injEq] at h
          rw [← h.1] at hop
          rcases List.mem_cons.mp hop with hmem | hmem
          · rw [hmem]; rfl
          · exact ih s2 ops1 s3 h3 op hmem

theorem deserializePhysicsWorldSnapshot_rank (s : ByteStream) (ops : List NetOp)
    (s' : ByteStream) (h : deserializePhysicsWorldSnapshot s = some (ops, s')) :
    ∀ op ∈ ops, op.rank = 1 := by
  unfold deserializePhysicsWorldSnapshot at h
  cases h1 : readValue s with
  | none => rw [h1] at h; exact Option.noConfusion h
  | some vs =>
    obtain ⟨polygonCount, s1⟩ := vs
    simp only [h1] at h
    cases h2 : deserShapeList polygonCount s1 with
    | none => rw [h2] at h; exact Option.noConfusion h
    | some vs2 =>
      obtain ⟨polygons, s2⟩ := vs2
      simp only [h2] at h
      cases h3 : readValue s2 with
      | none => rw [h3] at h; exact Option.noConfusion h
      | some vs3 =>
        obtain ⟨circleCount, s3⟩ := vs3
        simp only [h3] at h
        cases h4 : deserShapeList circleCount s3 with
        | none => rw [h4] at h; exact Option.noConfusion h
        | some vs4 =>
          obtain ⟨circles, s4⟩ := vs4
          simp only [h4, Option.some.injEq, Prod.mk.injEq] at h
          intro op hop
          rw [← h.1] at hop
          rcases List.mem_append.mp hop with hmem | hmem
          · exact deserShapeList_rank polygonCount s1 polygons s2 h2 op hmem
          · exact deserShapeList_rank circleCount s3 circles s4 h4 op hmem

theorem pairwise_rank_homogeneous (l : List NetOp) (k : Nat)
    (h : ∀ op ∈ l, op.rank = k) :
    List.Pairwise (fun a b : NetOp => a.rank ≤ b.rank) l := by
  induction l with
  | nil => exact List.Pairwise.nil
  | cons a l ih =>
    refine List.Pairwise.cons (fun b hb => ?_)
      (ih fun op hop => h op (List.mem_cons_of_mem _ hop))
    rw [h a (List.mem_cons_self a l), h b (List.mem_cons_of_mem _ hb)]

theorem deserializeEntityComponentMetaSnapshot_ordered (alive : Nat → Bool)
    (s : ByteStream) (ops : List NetOp) (s' : ByteStream)
    (h : deserializeEntityComponentMetaSnapshot alive s = some (ops, s')) :
    List.Pairwise (fun a b : NetOp => a.rank ≤ b.rank) ops ∧
    ∀ op ∈ ops, 2 ≤ op.rank ∧ op.rank ≤ 6 := by
  unfold deserializeEntityComponentMetaSnapshot at h
  cases h1 : deserArchetypeSection NetOp.addComponent s with
  | none => rw [h1] at h; exact Option.noConfusion h
  | some vs1 =>
    obtain ⟨created, s1⟩ := vs1
    simp only [h1] at h
    cases h2 : deserArchetypeSection NetOp.removeComponent s1 with
    | none => rw [h2] at h; exact Option.noConfusion h
    | some vs2 =>
      obtain ⟨destroyedComps, s2⟩ := vs2
      simp only [h2] at h
      cases h3 : deserEntitySection alive NetOp.destroyEntity s2 with
      | none => rw [h3] at h; exact Option.noConfusion h
      | some vs3 =>
        obtain ⟨destroyedEntities, s3⟩ := vs3
        simp only [h3] at h
        cases h4 : deserEntitySection alive NetOp.enableEntity s3 with
        | none => rw [h4] at h; exact Option.noConfusion h
        | some vs4 =>
          obtain ⟨enabled, s4⟩ := vs4
          simp only [h4] at h
          cases h5 : deserEntitySection alive NetOp.disableEntity s4 with
          | none => rw [h5] at h; exact Option.noConfusion h
          | some vs5 =>
            obtain ⟨disabled, s5⟩ := vs5
            simp only [h5, Option.some.injEq, Prod.mk.injEq] at h
            have hc := deserArchetypeSection_rank NetOp.addComponent 2
              (fun e c => rfl) s created s1 h1
            have hd := deserArchetypeSection_rank NetOp.removeComponent 3
              (fun e c => rfl) s1 destroyedComps s2 h2
            have he := deserEntitySection_rank alive NetOp.destroyEntity 4
              (fun e => rfl) s2 destroyedEntities s3 h3
            have hf := deserEntitySection_rank alive NetOp.enableEntity 5
              (fun e => rfl) s3 enabled s4 h4
            have hg := deserEntitySection_rank alive NetOp.disableEntity 6
              (fun e => rfl) s4 disabled s5 h5
            rw [← h.1]
            rw [List.append_assoc, List.append_assoc, List.append_assoc]
            constructor
            · refine List.pairwise_append.mpr ⟨pairwise_rank_homogeneous _ 2 hc,
                ?_, ?_⟩
              · refine List.pairwise_append.mpr ⟨pairwise_rank_homogeneous _ 3 hd,
                  ?_, ?_⟩
                · refine List.pairwise_append.mpr
                    ⟨pairwise_rank_homogeneous _ 4 he, ?_, ?_⟩
                  · refine List.pairwise_append.mpr
                      ⟨pairwise_rank_homogeneous _ 5 hf,
                       pairwise_rank_homogeneous _ 6 hg, ?_⟩
                    intro a ha b hb
                    rw [hf a ha, hg b hb]
                    norm_num
                  · intro a ha b hb
                    rcases List.mem_append.mp hb with hb | hb
                    · rw [he a ha, hf b hb]; norm_num
                    · rw [he a ha, hg b hb]; norm_num
                · intro a ha b hb
                  rcases List.mem_append.mp hb with hb | hb
                  · rw [hd a ha, he b hb]; norm_num
                  · rcases List.mem_append.mp hb with hb | hb
                    · rw [hd a ha, hf b hb]; norm_num
                    · rw [hd a ha, hg b hb]; norm_num
              · intro a ha b hb
                rcases List.mem_append.mp hb with hb | hb
                · rw [hc a ha, hd b hb]; norm_num
                · rcases List.mem_append.mp hb with hb | hb
                  · rw [hc a ha, he b hb]; norm_num
                  · rcases List.mem_append.mp hb with hb | hb
                    · rw [hc a ha, hf b hb]; norm_num
                    · rw [hc a ha, hg b hb]; norm_num
            · intro op hop
              rcases List.mem_append.mp hop with hm | hm
              · rw [hc op hm]; norm_num
              · rcases List.mem_append.mp hm with hm | hm
                · rw [hd op hm]; norm_num
                · rcases List.mem_append.mp hm with hm | hm
                  · rw [he op hm]; norm_num
                  · rcases List.mem_append.mp hm with hm | hm
                    · rw [hf op hm]; norm_num
                    · rw [hg op hm]; norm_num

theorem section_rank_flag (cond : Prop) [Decidable cond]
    (parser : Option (List NetOp × ByteStream)) (s : ByteStream)
    (ops : List NetOp) (s' : ByteStream) (P : NetOp → Prop)
    (hp : parser = some (ops, s') → ∀ op ∈ ops, P op)
    (h : (if cond then parser else some (([] : List NetOp), s)) = some (ops, s')) :
    ∀ op ∈ ops, P op := by
  split at h
  · exact hp h
  · simp only [Option.some.injEq, Prod.mk.injEq] at h
    intro op hop
    rw [← h.1] at hop
    exact absurd hop (List.not_mem_nil op)

theorem section_meta_flag (cond : Prop) [Decidable cond] (alive : Nat → Bool)
    (sm s : ByteStream) (ops : List NetOp) (s' : ByteStream)
    (h : (if cond then deserializeEntityComponentMetaSnapshot alive sm
          else some (([] : List NetOp), s)) = some (ops, s')) :
    List.Pairwise (fun a b : NetOp => a.rank ≤ b.rank) ops ∧
    ∀ op ∈ ops, 2 ≤ op.rank ∧ op.rank ≤ 6 := by
  split at h
  · exact deserializeEntityComponentMetaSnapshot_ordered alive sm ops s' h
  · simp only [Option.some.injEq, Prod.mk.injEq] at h
    rw [← h.1]
    exact ⟨List.Pairwise.nil, fun op hop => absurd hop (List.not_mem_nil op)⟩

theorem stateSection_rank (cond : Prop) [Decidable cond] (sm s : ByteStream)
    (ops : List NetOp) (s' : ByteStream)
    (h : (if cond then
            match readValue sm with
            | none => none
            | some (stateId, s1) => some ([NetOp.stateTransition stateId], s1)
          else some (([] : List NetOp), s)) = some (ops, s')) :
    ∀ op ∈ ops, op.rank = 0 := by
  split at h
  · cases h1 : readValue sm with
    | none => rw [h1] at h; exact Option.noConfusion h
    | some vs =>
      obtain ⟨stateId, s1⟩ := vs
      simp only [h1, Option.some.injEq, Prod.mk.injEq] at h
      intro op hop
      rw [← h.1] at hop
      rw [List.mem_singleton.mp hop]
      rfl
  · simp only [Option.some.injEq, Prod.mk.injEq] at h
    intro op hop
    rw [← h.1] at hop
    exact absurd hop (List.not_mem_nil op)

/-- C2 (amended): the edits a delta snapshot applies are ordered by phase — the
state transition first, then physics shape updates, then component additions,
then component removals, then entity destructions, then enables, then disables,
then component value updates (`NetOp.rank` is monotone along the edit list); in
particular every lifecycle edit of a tick is applied before any value-update
edit of that same tick. -/
theorem snapshotApplyOrder (alive : Nat → Bool) (flags : Nat) (s : ByteStream)
    (ops : List NetOp) (h : updateAllWithSnapshotBuffer alive flags s = some ops) :
    List.Pairwise (fun a b : NetOp => a.rank ≤ b.rank) ops
    ∧ ∀ (i j : Fin ops.length), (i : Nat) < (j : Nat) →
        (ops.get i).isValueUpdate → ¬ (ops.get j).isLifecycle := by
  have main : List.Pairwise (fun a b : NetOp => a.rank ≤ b.rank) ops := by
    unfold updateAllWithSnapshotBuffer at h
    by_cases h0 : flags = 0
    · rw [if_pos h0] at h
      simp only [Option.some.injEq] at h
      rw [← h]
      exact List.Pairwise.nil
    rw [if_neg h0] at h
    cases hx1 : (if flags &&& STATE_SERIALIZED ≠ 0 then
        match readValue s with
        | none => none
        | some (stateId, s1) => some ([NetOp.stateTransition stateId], s1)
      else some (([] : List NetOp), s)) with
    | none => rw [hx1] at h; exact Option.noConfusion h
    | some vs1 =>
      obtain ⟨stateOps, s1⟩ := vs1
      simp only [hx1] at h
      cases hx2 : (if flags &&& PHYSICS_SERIALIZED ≠ 0 then
          deserializePhysicsWorldSnapshot s1
        else some (([] : List NetOp), s1)) with
      | none => rw [hx2] at h; exact Option.noConfusion h
      | some vs2 =>
        obtain ⟨physicsOps, s2⟩ := vs2
        simp only [hx2] at h
        cases hx3 : (if flags &&& META_SERIALIZED ≠ 0 then
            deserializeEntityComponentMetaSnapshot alive s2
          else some (([] : List NetOp), s2)) with
        | none => rw [hx3] at h; exact Option.noConfusion h
        | some vs3 =>
          obtain ⟨metaOps, s3⟩ := vs3
          simp only [hx3] at h
          cases hx4 : (if flags &&& HIGH_PIORITY_SERIALIZED ≠ 0 then
              deserializeComponentSnapshot s3
            else some (([] : List NetOp), s3)) with
          | none => rw [hx4] at h; exact Option.noConfusion h
          | some vs4 =>
            obtain ⟨highOps, s4⟩ := vs4
            simp only [hx4] at h
            cases hx5 : (if flags &&& LOW_PIORITY_SERIALIZED ≠ 0 then
                deserializeComponentSnapshot s4
              else some (([] : List NetOp), s4)) with
            | none => rw [hx5] at h; exact Option.noConfusion h
            | some vs5 =>
              obtain ⟨lowOps, s5⟩ := vs5
              simp only [hx5, Option.some.injEq] at h
              have hA : ∀ op ∈ stateOps, op.rank = 0 :=
                stateSection_rank _ s s stateOps s1 hx1
              have hB : ∀ op ∈ physicsOps, op.rank = 1 :=
                section_rank_flag _ (deserializePhysicsWorldSnapshot s1) s1
                  physicsOps s2 (fun op => op.rank = 1)
                  (fun hp => deserializePhysicsWorldSnapshot_rank s1
                    physicsOps s2 hp) hx2
              have hM := section_meta_flag _ alive s2 s2 metaOps s3 hx3
              have hH : ∀ op ∈ highOps, op.rank = 7 :=
                section_rank_flag _ (deserializeComponentSnapshot s3) s3
                  highOps s4 (fun op => op.rank = 7)
                  (fun hp => deserializeComponentSnapshot_rank s3
                    highOps s4 hp) hx4
              have hL : ∀ op ∈ lowOps, op.rank = 7 :=
                section_rank_flag _ (deserializeComponentSnapshot s4) s4
                  lowOps s5 (fun op => op.rank = 7)
                  (fun hp => deserializeComponentSnapshot_rank s4
                    lowOps s5 hp) hx5
              rw [← h, List.append_assoc, List.append_assoc, List.append_assoc]
              refine List.pairwise_append.mpr
                ⟨pairwise_rank_homogeneous _ 0 hA, ?_, ?_⟩
              · refine List.pairwise_append.mpr
                  ⟨pairwise_rank_homogeneous _ 1 hB, ?_, ?_⟩
                · refine List.pairwise_append.mpr ⟨hM.1, ?_, ?_⟩
                  · refine List.pairwise_append.mpr
                      ⟨pairwise_rank_homogeneous _ 7 hH,
                       pairwise_rank_homogeneous _ 7 hL, ?_⟩
                    intro a ha b hb
                    rw [hH a ha, hL b hb]
                  · intro a ha b hb
                    have hm2 := (hM.2 a ha).2
                    rcases List.mem_append.mp hb with hb | hb
                    · rw [hH b hb]; omega
                    · rw [hL b hb]; omega
                · intro a ha b hb
                  rw [hB a ha]
                  rcases List.mem_append.mp hb with hb | hb
                  · have := (hM.2 b hb).1; omega
                  · rcases List.mem_append.mp hb with hb | hb
                    · rw [hH b hb]; omega
                    · rw [hL b hb]; omega
              · intro a ha b hb
                rw [hA a ha]
                exact Nat.zero_le _
  refine ⟨main, fun i j hij hv hl => ?_⟩
  have hle := List.pairwise_iff_get.mp main i j hij
  unfold NetOp.isValueUpdate at hv
  unfold NetOp.isLifecycle at hl
  omega

/-- C2 counterexample: a delta snapshot whose meta section creates component 7
on entity 5 and destroys entity 9 applies the component addition before the
entity destruction, refuting the claimed order (entity destructions first, then
component additions, then removals, then enable/disable, then value updates). -/
theorem snapshotApplyOrderClaimCounterexample :
    updateAllWithSnapshotBuffer (fun _ => true) 4 [1, 1, 7, 1, 5, 0, 1, 9, 0, 0] =
      some [NetOp.addComponent 5 7, NetOp.destroyEntity 9]
    ∧ ¬ List.Pairwise (fun a b : NetOp => a.claimedRank ≤ b.claimedRank)
        [NetOp.addComponent 5 7, NetOp.destroyEntity 9] :=
  ⟨by decide, by decide⟩

/-- Witness for C2 at the concrete snapshot of the counterexample: the applied
edit list is monotone in `NetOp.rank` and keeps lifecycle edits ahead of value
updates. -/
theorem snapshotApplyOrder_witness :
    List.Pairwise (fun a b : NetOp => a.rank ≤ b.rank)
        [NetOp.addComponent 5 7, NetOp.destroyEntity 9]
    ∧ ∀ (i j : Fin ([NetOp.addComponent 5 7,
          NetOp.destroyEntity 9] : List NetOp).length),
        (i : Nat) < (j : Nat) →
        (([NetOp.addComponent 5 7,
            NetOp.destroyEntity 9] : List NetOp).get i).isValueUpdate →
        ¬ (([NetOp.addComponent 5 7,
            NetOp.destroyEntity 9] : List NetOp).get j).isLifecycle :=
  snapshotApplyOrder (fun _ => true) 4 [1, 1, 7, 1, 5, 0, 1, 9, 0, 0]
    [NetOp.addComponent 5 7, NetOp.destroyEntity 9] (by decide)

/-! ## Theorems about the High/Low priority guarantee (C4) -/

theorem mem_insertPending (l : List (Nat × Nat)) (p q : Nat × Nat) :
    p ∈ insertPending l q ↔ p ∈ l ∨ p = q := by
  unfold insertPending
  split
  · constructor
    · exact fun h => Or.inl h
    · rintro (h | rfl)
      · exact h
      · assumption
  · simp [List.mem_append]

theorem mem_insertPending_self (l : List (Nat × Nat)) (p : Nat × Nat) :
    p ∈ insertPending l p :=
  (mem_insertPending l p p).mpr (Or.inr rfl)

theorem mem_insertPending_of_mem (l : List (Nat × Nat)) (p q : Nat × Nat)
    (h : p ∈ l) : p ∈ insertPending l q :=
  (mem_insertPending l p q).mpr (Or.inl h)

theorem mem_serializePendingUpdates (alive : List Nat)
    (pending : List (Nat × Nat)) (p : Nat × Nat) :
    p ∈ serializePendingUpdates alive pending ↔ p ∈ pending ∧ p.1 ∈ alive := by
  unfold serializePendingUpdates
  rw [List.mem_filter]
  simp

theorem countRel_append (p : Nat × Nat)
    (o1 o2 : List (List (Nat × Nat) × List (Nat × Nat))) :
    countReliableContaining p (o1 ++ o2) =
      countReliableContaining p o1 + countReliableContaining p o2 :=
  List.countP_append _ _ _

theorem serverRun_append (l1 l2 : List ServerEvent) :
    ∀ s : ServerWorldState,
      serverRun s (l1 ++ l2) =
        ((serverRun (serverRun s l1).1 l2).1,
         (serverRun s l1).2 ++ (serverRun (serverRun s l1).1 l2).2) := by
  induction l1 with
  | nil => intro s; simp [serverRun]
  | cons e rest ih =>
    intro s
    rw [List.cons_append, serverRun, serverRun, ih (serverStep s e).1]
    simp [List.append_assoc]

theorem countRel_le (p : Nat × Nat) (evs : List ServerEvent) :
    ∀ s : ServerWorldState,
      countReliableContaining p (serverRun s evs).2 ≤
        highRecordCount p evs +
          (if p ∈ s.highUpdates then 1 else 0) := by
  induction evs with
  | nil =>
    intro s
    simp [serverRun, countReliableContaining]
  | cons e rest ih =>
    intro s
    rw [serverRun]
    cases e with
    | record a b prio =>
      cases prio with
      | high =>
        simp only [serverStep, List.nil_append]
        have hrest := ih { s with highUpdates := insertPending s.highUpdates (a, b) }
        have hcount : highRecordCount p (ServerEvent.record a b Piority.high :: rest) =
            highRecordCount p rest + (if (a, b) = p then 1 else 0) := by
          unfold highRecordCount
          rw [List.countP_cons]
          by_cases hab : (a, b) = p <;> simp [hab]
        rw [hcount]
        by_cases hab : (a, b) = p
        · rw [if_pos ((mem_insertPending _ p (a, b)).mpr (Or.inr hab.symm))] at hrest
          rw [if_pos hab]
          have hle : (if p ∈ s.highUpdates then 1 else 0) ≤ 1 := by
            split <;> omega
          omega
        · have hiff : (p ∈ insertPending s.highUpdates (a, b)) ↔
              p ∈ s.highUpdates := by
            rw [mem_insertPending]
            constructor
            · rintro (hm | rfl)
              · exact hm
              · exact absurd rfl hab
            · exact Or.inl
          rw [if_neg hab]
          by_cases hp : p ∈ s.highUpdates
          · rw [if_pos (hiff.mpr hp)] at hrest
            rw [if_pos hp]
            omega
          · rw [if_neg (fun hc => hp (hiff.mp hc))] at hrest
            rw [if_neg hp]
            omega
      | low =>
        simp only [serverStep, List.nil_append]
        have hrest := ih { s with lowUpdates := insertPending s.lowUpdates (a, b) }
        have hcount : highRecordCount p (ServerEvent.record a b Piority.low :: rest) =
            highRecordCount p rest := by
          unfold highRecordCount
          rw [List.countP_cons]
          simp
        rw [hcount]
        exact hrest
    | spawn a =>
      simp only [serverStep, List.nil_append]
      have hrest := ih { s with alive := s.alive ++ [a] }
      have hcount : highRecordCount p (ServerEvent.spawn a :: rest) =
          highRecordCount p rest := by
        unfold highRecordCount
        rw [List.countP_cons]
        simp
      rw [hcount]
      exact hrest
    | destroy a =>
      simp only [serverStep, List.nil_append]
      have hrest := ih { s with alive := s.alive.filter (fun x => x ≠ a) }
      have hcount : highRecordCount p (ServerEvent.destroy a :: rest) =
          highRecordCount p rest := by
        unfold highRecordCount
        rw [List.countP_cons]
        simp
      rw [hcount]
      exact hrest
    | endSnapshot =>
      simp only [serverStep]
      rw [countRel_append]
      have hrest := ih ⟨[], [], s.alive⟩
      rw [show ((⟨[], [], s.alive⟩ : ServerWorldState).highUpdates) = []
        from rfl, if_neg (List.not_mem_nil p)] at hrest
      have hcount : highRecordCount p (ServerEvent.endSnapshot :: rest) =
          highRecordCount p rest := by
        unfold highRecordCount
        rw [List.countP_cons]
        simp
      rw [hcount]
      have hone : countReliableContaining p
          [(serializePendingUpdates s.alive s.highUpdates,
            serializePendingUpdates s.alive s.lowUpdates)] ≤
          (if p ∈ s.highUpdates then 1 else 0) := by
        unfold countReliableContaining
        rw [List.countP_cons, List.countP_nil]
        by_cases hp : p ∈ serializePendingUpdates s.alive s.highUpdates
        · have hmm := ((mem_serializePendingUpdates _ _ p).mp hp).1
          rw [if_pos hmm]
          split <;> omega
        · rw [if_neg (by simpa using hp)]
          omega
      omega


theorem pending_not_mem_run (p : Nat × Nat) (evs : List ServerEvent)
    (hrec : highRecordCount p evs = 0) :
    ∀ s : ServerWorldState, p ∉ s.highUpdates →
      p ∉ (serverRun s evs).1.highUpdates := by
  induction evs with
  | nil => intro s hs; exact hs
  | cons e rest ih =>
    intro s hs
    have hrest : highRecordCount p rest = 0 := by
      unfold highRecordCount at hrec ⊢
      rw [List.countP_cons] at hrec
      omega
    rw [serverRun]
    cases e with
    | record a b prio =>
      cases prio with
      | high =>
        have hab : (a, b) ≠ p := by
          intro hc
          unfold highRecordCount at hrec
          rw [List.countP_cons] at hrec
          simp [hc] at hrec
        refine ih hrest _ ?_
        intro hc
        rcases (mem_insertPending _ p (a, b)).mp hc with hc | hc
        · exact hs hc
        · exact hab hc.symm
      | low => exact ih hrest _ hs
    | spawn a => exact ih hrest _ hs
    | destroy a => exact ih hrest _ hs
    | endSnapshot => exact ih hrest _ (List.not_mem_nil p)

theorem alive_mem_run (x : Nat) (evs : List ServerEvent)
    (hd : destroyCount evs = 0) :
    ∀ s : ServerWorldState, x ∈ s.alive → x ∈ (serverRun s evs).1.alive := by
  induction evs with
  | nil => intro s hs; exact hs
  | cons e rest ih =>
    intro s hs
    have hrest : destroyCount rest = 0 := by
      unfold destroyCount at hd ⊢
      rw [List.countP_cons] at hd
      omega
    rw [serverRun]
    cases e with
    | record a b prio =>
      cases prio with
      | high => exact ih hrest _ hs
      | low => exact ih hrest _ hs
    | spawn a => exact ih hrest _ (List.mem_append_left _ hs)
    | destroy a =>
      exfalso
      unfold destroyCount at hd
      rw [List.countP_cons] at hd
      simp at hd
    | endSnapshot => exact ih hrest _ hs

theorem countRel_exact_of_pending (p : Nat × Nat) (evs : List ServerEvent)
    (hrec : highRecordCount p evs = 0) (hd : destroyCount evs = 0)
    (hend : ServerEvent.endSnapshot ∈ evs) :
    ∀ s : ServerWorldState, p ∈ s.highUpdates → p.1 ∈ s.alive →
      countReliableContaining p (serverRun s evs).2 = 1 := by
  induction evs with
  | nil => exact absurd hend (List.not_mem_nil _)
  | cons e rest ih =>
    intro s hp halive
    have hrecr : highRecordCount p rest = 0 := by
      unfold highRecordCount at hrec ⊢
      rw [List.countP_cons] at hrec
      omega
    have hdr : destroyCount rest = 0 := by
      unfold destroyCount at hd ⊢
      rw [List.countP_cons] at hd
      omega
    rw [serverRun]
    cases e with
    | record a b prio =>
      have hendr : ServerEvent.endSnapshot ∈ rest := by
        rcases List.mem_cons.mp hend with hc | hc
        · exact absurd hc.symm (by intro hc2; cases hc2)
        · exact hc
      cases prio with
      | high =>
        simp only [serverStep, List.nil_append]
        exact ih hrecr hdr hendr _ (mem_insertPending_of_mem _ p (a, b) hp) halive
      | low =>
        simp only [serverStep, List.nil_append]
        exact ih hrecr hdr hendr _ hp halive
    | spawn a =>
      have hendr : ServerEvent.endSnapshot ∈ rest := by
        rcases List.mem_cons.mp hend with hc | hc
        · exact absurd hc.symm (by intro hc2; cases hc2)
        · exact hc
      simp only [serverStep, List.nil_append]
      exact ih hrecr hdr hendr _ hp (List.mem_append_left _ halive)
    | destroy a =>
      exfalso
      unfold destroyCount at hd
      rw [List.countP_cons] at hd
      simp at hd
    | endSnapshot =>
      simp only [serverStep]
      rw [countRel_append]
      have hmem : p ∈ serializePendingUpdates s.alive s.highUpdates :=
        (mem_serializePendingUpdates _ _ p).mpr ⟨hp, halive⟩
      have hone : countReliableContaining p
          [(serializePendingUpdates s.alive s.highUpdates,
            serializePendingUpdates s.alive s.lowUpdates)] = 1 := by
        unfold countReliableContaining
        rw [List.countP_cons]
        simp [hmem]
      have hzero : countReliableContaining p
          (serverRun (⟨[], [], s.alive⟩ : ServerWorldState) rest).2 = 0 := by
        have hle := countRel_le p rest ⟨[], [], s.alive⟩
        rw [show ((⟨[], [], s.alive⟩ : ServerWorldState).highUpdates) = []
          from rfl] at hle
        rw [if_neg (List.not_mem_nil p), hrecr] at hle
        omega
      omega

theorem output_mem_high_recorded (p : Nat × Nat) (evs : List ServerEvent) :
    ∀ (s : ServerWorldState) (out : List (Nat × Nat) × List (Nat × Nat)),
      out ∈ (serverRun s evs).2 → p ∈ out.1 →
      p ∈ s.highUpdates ∨ 0 < highRecordCount p evs := by
  induction evs with
  | nil =>
    intro s out hout
    simp [serverRun] at hout
  | cons e rest ih =>
    intro s out hout hp
    rw [serverRun] at hout
    have hcount : highRecordCount p rest ≤
        highRecordCount p (e :: rest) := by
      unfold highRecordCount
      rw [List.countP_cons]
      omega
    cases e with
    | record a b prio =>
      simp only [List.nil_append] at hout
      cases prio with
      | high =>
        rcases ih _ out hout hp with hc | hc
        · rcases (mem_insertPending _ p (a, b)).mp hc with hc2 | hc2
          · exact Or.inl hc2
          · right
            unfold highRecordCount
            rw [List.countP_cons]
            simp [hc2.symm]
        · right; omega
      | low =>
        rcases ih _ out hout hp with hc | hc
        · exact Or.inl hc
        · right; omega
    | spawn a =>
      simp only [List.nil_append] at hout
      rcases ih _ out hout hp with hc | hc
      · exact Or.inl hc
      · right; omega
    | destroy a =>
      simp only [List.nil_append] at hout
      rcases ih _ out hout hp with hc | hc
      · exact Or.inl hc
      · right; omega
    | endSnapshot =>
      simp only [serverStep] at hout
      rcases List.mem_cons.mp hout with hc | hc
      · rw [hc] at hp
        exact Or.inl ((mem_serializePendingUpdates _ _ p).mp hp).1
      · rcases ih _ out hc hp with hc2 | hc2
        · exact absurd hc2 (List.not_mem_nil p)
        · right; omega

theorem output_mem_low_recorded (p : Nat × Nat) (evs : List ServerEvent) :
    ∀ (s : ServerWorldState) (out : List (Nat × Nat) × List (Nat × Nat)),
      out ∈ (serverRun s evs).2 → p ∈ out.2 →
      p ∈ s.lowUpdates ∨ 0 < lowRecordCount p evs := by
  induction evs with
  | nil =>
    intro s out hout
    simp [serverRun] at hout
  | cons e rest ih =>
    intro s out hout hp
    rw [serverRun] at hout
    have hcount : lowRecordCount p rest ≤ lowRecordCount p (e :: rest) := by
      unfold lowRecordCount
      rw [List.countP_cons]
      omega
    cases e with
    | record a b prio =>
      simp only [List.nil_append] at hout
      cases prio with
      | low =>
        rcases ih _ out hout hp with hc | hc
        · rcases (mem_insertPending _ p (a, b)).mp hc with hc2 | hc2
          · exact Or.inl hc2
          · right
            unfold lowRecordCount
            rw [List.countP_cons]
            simp [hc2.symm]
        · right; omega
      | high =>
        rcases ih _ out hout hp with hc | hc
        · exact Or.inl hc
        · right; omega
    | spawn a =>
      simp only [List.nil_append] at hout
      rcases ih _ out hout hp with hc | hc
      · exact Or.inl hc
      · right; omega
    | destroy a =>
      simp only [List.nil_append] at hout
      rcases ih _ out hout hp with hc | hc
      · exact Or.inl hc
      · right; omega
    | endSnapshot =>
      simp only [serverStep] at hout
      rcases List.mem_cons.mp hout with hc | hc
      · rw [hc] at hp
        exact Or.inl ((mem_serializePendingUpdates _ _ p).mp hp).1
      · rcases ih _ out hc hp with hc2 | hc2
        · exact absurd hc2 (List.not_mem_nil p)
        · right; omega

/-- C4 (amended): the priority guarantee of the snapshot compiler.
(i) Producing a snapshot serializes the High-priority pending set into the
reliable buffer and the Low-priority pending set into the unreliable buffer
(entries whose entity is no longer alive are skipped) and clears both pending
sets.  (ii) A pair present in any reliable buffer of a run was recorded High,
and a pair present in any unreliable buffer was recorded Low — Low-priority
updates never reach a reliable buffer on their own.  (iii) Over any run, a pair
appears in at most as many reliable buffers as it was High-recorded.  (iv) A
High-priority update recorded once, whose entity is alive and is never
destroyed, is serialized into exactly one reliable buffer once a snapshot is
produced after it. -/
theorem highPriorityExactlyOnce :
    (∀ s : ServerWorldState,
        (serverStep s ServerEvent.endSnapshot).1.highUpdates = [] ∧
        (serverStep s ServerEvent.endSnapshot).1.lowUpdates = [] ∧
        (serverStep s ServerEvent.endSnapshot).2 =
          some (serializePendingUpdates s.alive s.highUpdates,
                serializePendingUpdates s.alive s.lowUpdates))
    ∧ (∀ (alive0 : List Nat) (evs : List ServerEvent)
          (out : List (Nat × Nat) × List (Nat × Nat)) (p : Nat × Nat),
        out ∈ (serverRun ⟨[], [], alive0⟩ evs).2 →
        (p ∈ out.1 → 0 < highRecordCount p evs) ∧
        (p ∈ out.2 → 0 < lowRecordCount p evs))
    ∧ (∀ (alive0 : List Nat) (evs : List ServerEvent) (p : Nat × Nat),
        countReliableContaining p (serverRun ⟨[], [], alive0⟩ evs).2 ≤
          highRecordCount p evs)
    ∧ (∀ (alive0 : List Nat) (evs1 evs2 : List ServerEvent) (e c : Nat),
        highRecordCount (e, c) evs1 = 0 → highRecordCount (e, c) evs2 = 0 →
        destroyCount (evs1 ++ ServerEvent.record e c Piority.high :: evs2) = 0 →
        e ∈ alive0 → ServerEvent.endSnapshot ∈ evs2 →
        countReliableContaining (e, c)
          (serverRun ⟨[], [], alive0⟩
            (evs1 ++ ServerEvent.record e c Piority.high :: evs2)).2 = 1) := by
  refine ⟨fun s => ⟨rfl, rfl, rfl⟩, ?_, ?_, ?_⟩
  · intro alive0 evs out p hout
    constructor
    · intro hp
      rcases output_mem_high_recorded p evs ⟨[], [], alive0⟩ out hout hp with hc | hc
      · exact absurd hc (List.not_mem_nil p)
      · exact hc
    · intro hp
      rcases output_mem_low_recorded p evs ⟨[], [], alive0⟩ out hout hp with hc | hc
      · exact absurd hc (List.not_mem_nil p)
      · exact hc
  · intro alive0 evs p
    have hle := countRel_le p evs ⟨[], [], alive0⟩
    rw [show ((⟨[], [], alive0⟩ : ServerWorldState).highUpdates) = []
      from rfl] at hle
    rw [if_neg (List.not_mem_nil p)] at hle
    omega
  · intro alive0 evs1 evs2 e c hrec1 hrec2 hd he hend
    have hd1 : destroyCount evs1 = 0 := by
      unfold destroyCount at hd ⊢
      rw [List.countP_append] at hd
      omega
    have hd2 : destroyCount evs2 = 0 := by
      unfold destroyCount at hd ⊢
      rw [List.countP_append, List.countP_cons] at hd
      omega
    rw [serverRun_append, countRel_append]
    set s1 := (serverRun (⟨[], [], alive0⟩ : ServerWorldState) evs1).1 with hs1
    have hcount1 : countReliableContaining (e, c)
        (serverRun (⟨[], [], alive0⟩ : ServerWorldState) evs1).2 = 0 := by
      have hle := countRel_le (e, c) evs1 ⟨[], [], alive0⟩
      rw [show ((⟨[], [], alive0⟩ : ServerWorldState).highUpdates) = []
        from rfl] at hle
      rw [if_neg (List.not_mem_nil (e, c)), hrec1] at hle
      omega
    have halive1 : e ∈ s1.alive :=
      alive_mem_run e evs1 hd1 ⟨[], [], alive0⟩ he
    rw [serverRun]
    have hstep : serverStep s1 (ServerEvent.record e c Piority.high) =
        ({ s1 with highUpdates := insertPending s1.highUpdates (e, c) },
         none) := rfl
    rw [hstep]
    simp only [List.nil_append]
    have hcount2 : countReliableContaining (e, c)
        (serverRun { s1 with
          highUpdates := insertPending s1.highUpdates (e, c) } evs2).2 = 1 :=
      countRel_exact_of_pending (e, c) evs2 hrec2 hd2 hend _
        (mem_insertPending_self _ (e, c)) halive1
    rw [hcount1, hcount2]

/-- C4 counterexample: a High-priority update recorded for entity 1, whose
entity is destroyed before the snapshot is produced, is serialized into zero
reliable buffers (the pending entry is skipped by the aliveness check and then
cleared), so a recorded High-priority update is not always serialized into
exactly one reliable buffer. -/
theorem highPriorityExactlyOnceClaimCounterexample :
    highRecordCount (1, 5)
        [ServerEvent.record 1 5 Piority.high, ServerEvent.destroy 1,
         ServerEvent.endSnapshot] = 1
    ∧ ServerEvent.endSnapshot ∈
        [ServerEvent.record 1 5 Piority.high, ServerEvent.destroy 1,
         ServerEvent.endSnapshot]
    ∧ countReliableContaining (1, 5)
        (serverRun ⟨[], [], [1]⟩
          [ServerEvent.record 1 5 Piority.high, ServerEvent.destroy 1,
           ServerEvent.endSnapshot]).2 = 0 :=
  ⟨by decide, by decide, by decide⟩

/-- Witness for C4: one High-priority record for live entity 1 followed by one
snapshot production lands in exactly one reliable buffer. -/
theorem highPriorityExactlyOnce_witness :
    countReliableContaining (1, 5)
      (serverRun ⟨[], [], [1]⟩
        ([] ++ ServerEvent.record 1 5 Piority.high ::
          [ServerEvent.endSnapshot])).2 = 1 :=
  highPriorityExactlyOnce.2.2.2 [1] [] [ServerEvent.endSnapshot] 1 5
    rfl rfl (by decide) (by decide) (by decide)

/-! ## Theorems about polygon vertex fixing (C7) -/

theorem foldl_perm_of_rightComm {α β : Type} (f : β → α → β)
    (hf : ∀ (b : β) (a1 a2 : α), f (f b a1) a2 = f (f b a2) a1)
    {l1 l2 : List α} (h : l1.Perm l2) :
    ∀ b : β, l1.foldl f b = l2.foldl f b := by
  induction h with
  | nil => intro b; rfl
  | cons x h ih =>
    intro b
    simp only [List.foldl_cons]
    exact ih (f b x)
  | swap x y l =>
    intro b
    simp only [List.foldl_cons]
    rw [hf]
  | trans h1 h2 ih1 ih2 =>
    intro b
    rw [ih1, ih2]

theorem foldl_const_acc {α β : Type} (l : List α) (b : β) :
    l.foldl (fun r _ => r) b = b := by
  induction l generalizing b with
  | nil => rfl
  | cons x rest ih => exact ih b

theorem vec2_add_right_comm (b a1 a2 : Vec2) :
    Vec2.add (Vec2.add b a1) a2 = Vec2.add (Vec2.add b a2) a1 := by
  simp only [Vec2.add, Vec2.mk.injEq]
  constructor <;> ring

theorem fixVertices_vertices_perm (input : List Vec2) :
    (fixVertices input).vertices.Perm input :=
  List.mergeSort_perm input _

theorem fixVertices_centroid (input : List Vec2) :
    (fixVertices input).centroid = centroidOf input := rfl

theorem centroidOf_perm {l1 l2 : List Vec2} (h : l1.Perm l2) :
    centroidOf l1 = centroidOf l2 := by
  simp only [centroidOf]
  rw [foldl_perm_of_rightComm Vec2.add vec2_add_right_comm h, h.length_eq]

theorem fixVertices_radius (input : List Vec2) :
    (fixVertices input).radius = 0 := by
  show input.foldl
    (fun r v => if Vec2.normSq (Vec2.sub (centroidOf input) v) > r * r
      then r else r) 0 = 0
  have hfun : (fun (r : ℚ) (v : Vec2) =>
      if Vec2.normSq (Vec2.sub (centroidOf input) v) > r * r then r else r) =
      fun (r : ℚ) (_ : Vec2) => r := by
    funext r v
    exact ite_self r
  rw [hfun]
  exact foldl_const_acc input 0

theorem maxNormSqFrom_perm (c : Vec2) {l1 l2 : List Vec2} (h : l1.Perm l2) :
    maxNormSqFrom c l1 = maxNormSqFrom c l2 := by
  unfold maxNormSqFrom
  exact foldl_perm_of_rightComm _
    (fun b a1 a2 => by rw [sup_right_comm]) h 0

theorem fixVertices_sorted (input : List Vec2) :
    (fixVertices input).vertices.Pairwise (fun v1 v2 =>
      angleFromMidsegment (Vec2.sub v1 (centroidOf input)) ≤
      angleFromMidsegment (Vec2.sub v2 (centroidOf input))) := by
  have hsort := @List.sorted_mergeSort Vec2
    (fun v1 v2 => decide (angleFromMidsegment (Vec2.sub v1 (centroidOf input)) ≤
      angleFromMidsegment (Vec2.sub v2 (centroidOf input))))
    (fun a b c hab hbc => by
      simp only [decide_eq_true_eq] at hab hbc ⊢
      exact le_trans hab hbc)
    (fun a b => by
      simp only [Bool.or_eq_true, decide_eq_true_eq]
      exact le_total _ _)
    input
  exact hsort.imp (fun h => decide_eq_true_eq.mp h)

/-- C7 (amended): after a vertex list of 3 to 8 vertices is assigned to a
`Polygon` (via a constructor or `setVertices`), the stored local vertices are
the input vertices sorted by signed angle about their centroid (the comparator
of `fixVertices`, measured from the downward direction): a permutation of the
input, not a translation of it — the centroid member holds the average of the
input vertices, so the stored vertices remain centred where the input was, not
about the origin — and the bounding `radius` member is left at 0, because the
radius loop's update assigns to the dead local `distance` instead of `radius`. -/
theorem fixVerticesBehavior (input : List Vec2) (_h3 : 3 ≤ input.length)
    (_h8 : input.length ≤ 8) :
    (fixVertices input).vertices.Perm input
    ∧ (fixVertices input).centroid = centroidOf input
    ∧ centroidOf (fixVertices input).vertices = centroidOf input
    ∧ (fixVertices input).radius = 0
    ∧ (fixVertices input).vertices.Pairwise (fun v1 v2 =>
        angleFromMidsegment (Vec2.sub v1 (centroidOf input)) ≤
        angleFromMidsegment (Vec2.sub v2 (centroidOf input))) :=
  ⟨fixVertices_vertices_perm input,
   fixVertices_centroid input,
   centroidOf_perm (fixVertices_vertices_perm input),
   fixVertices_radius input,
   fixVertices_sorted input⟩

/-- Witness for C7 at the triangle (0,0), (4,0), (0,4). -/
theorem fixVerticesBehavior_witness :
    (fixVertices [⟨0, 0⟩, ⟨4, 0⟩, ⟨0, 4⟩]).vertices.Perm
        [⟨0, 0⟩, ⟨4, 0⟩, ⟨0, 4⟩]
    ∧ (fixVertices [⟨0, 0⟩, ⟨4, 0⟩, ⟨0, 4⟩]).centroid =
        centroidOf [⟨0, 0⟩, ⟨4, 0⟩, ⟨0, 4⟩]
    ∧ centroidOf (fixVertices [⟨0, 0⟩, ⟨4, 0⟩, ⟨0, 4⟩]).vertices =
        centroidOf [⟨0, 0⟩, ⟨4, 0⟩, ⟨0, 4⟩]
    ∧ (fixVertices [⟨0, 0⟩, ⟨4, 0⟩, ⟨0, 4⟩]).radius = 0
    ∧ (fixVertices [⟨0, 0⟩, ⟨4, 0⟩, ⟨0, 4⟩]).vertices.Pairwise (fun v1 v2 =>
        angleFromMidsegment (Vec2.sub v1
          (centroidOf [⟨0, 0⟩, ⟨4, 0⟩, ⟨0, 4⟩])) ≤
        angleFromMidsegment (Vec2.sub v2
          (centroidOf [⟨0, 0⟩, ⟨4, 0⟩, ⟨0, 4⟩]))) :=
  fixVerticesBehavior [⟨0, 0⟩, ⟨4, 0⟩, ⟨0, 4⟩] (by norm_num) (by norm_num)

/-- C7 counterexample: for the triangle (0,0), (4,0), (0,4), the centroid of the
stored vertices is (4/3, 4/3), not the origin — the vertices are not re-centred
— and the stored bounding radius is 0 while the maximum squared distance from
the centroid to a vertex is 80/9, so the radius does not equal the maximum
distance from the centroid to a vertex. -/
theorem fixVerticesClaimCounterexample :
    centroidOf (fixVertices [⟨0, 0⟩, ⟨4, 0⟩, ⟨0, 4⟩]).vertices ≠ ⟨0, 0⟩
    ∧ ((fixVertices [⟨0, 0⟩, ⟨4, 0⟩, ⟨0, 4⟩]).radius) ^ 2 ≠
        maxNormSqFrom (fixVertices [⟨0, 0⟩, ⟨4, 0⟩, ⟨0, 4⟩]).centroid
          (fixVertices [⟨0, 0⟩, ⟨4, 0⟩, ⟨0, 4⟩]).vertices := by
  have htri : centroidOf [⟨0, 0⟩, ⟨4, 0⟩, ⟨0, 4⟩] = (⟨4 / 3, 4 / 3⟩ : Vec2) := by
    simp only [centroidOf, List.foldl_cons, List.foldl_nil, Vec2.add,
      List.length_cons, List.length_nil]
    norm_num
  constructor
  · rw [centroidOf_perm (fixVertices_vertices_perm _), htri]
    simp only [ne_eq, Vec2.mk.injEq, not_and]
    intro hc
    norm_num at hc
  · rw [fixVertices_radius, fixVertices_centroid, htri,
      maxNormSqFrom_perm _ (fixVertices_vertices_perm _)]
    simp only [maxNormSqFrom, List.foldl_cons, List.foldl_nil, Vec2.normSq,
      Vec2.sub]
    norm_num

/-! ## Theorems about collision symmetry (C8) -/

theorem overlapCond_symm (vs1 vs2 : List Vec2) (n : Vec2) :
    overlapCond vs1 vs2 n ↔ overlapCond vs2 vs1 n := by
  unfold overlapCond
  exact and_comm

theorem overlapAmount_symm (vs1 vs2 : List Vec2) (n : Vec2) :
    overlapAmount vs1 vs2 n = overlapAmount vs2 vs1 n := by
  unfold overlapAmount
  rw [min_comm (project vs1 n).max, max_comm (project vs1 n).min]

theorem satHalfTest_true_iff (vs1 vs2 : List Vec2) (axes : List Vec2) :
    ∀ m : CollisionManifold,
      (satHalfTest vs1 vs2 m axes).1 = true ↔
        ∀ n ∈ axes, overlapCond vs1 vs2 n := by
  induction axes with
  | nil =>
    intro m
    simp [satHalfTest]
  | cons n rest ih =>
    intro m
    simp only [satHalfTest]
    by_cases hc : overlapCond vs1 vs2 n
    · rw [if_neg (not_not_intro hc)]
      rw [ih]
      simp [List.forall_mem_cons, hc]
    · rw [if_pos hc]
      simp [List.forall_mem_cons, hc]

theorem satHalfTest_depth (vs1 vs2 : List Vec2) (axes : List Vec2) :
    ∀ m : CollisionManifold, (∀ n ∈ axes, overlapCond vs1 vs2 n) →
      (satHalfTest vs1 vs2 m axes).2.depth =
        List.foldl min m.depth (axes.map (overlapAmount vs1 vs2)) := by
  induction axes with
  | nil =>
    intro m _
    rfl
  | cons n rest ih =>
    intro m hall
    simp only [satHalfTest]
    rw [if_neg (not_not_intro (hall n (List.mem_cons_self n rest)))]
    have hm1 : (if overlapAmount vs1 vs2 n ≤ m.depth
        then CollisionManifold.mk (overlapAmount vs1 vs2 n) n else m).depth =
        min m.depth (overlapAmount vs1 vs2 n) := by
      by_cases hle : overlapAmount vs1 vs2 n ≤ m.depth
      · rw [if_pos hle]
        exact (min_eq_right hle).symm
      · rw [if_neg hle]
        exact (min_eq_left (le_of_not_le hle)).symm
    rw [ih _ (fun n2 hn2 => hall n2 (List.mem_cons_of_mem n hn2)), hm1]
    rw [List.map_cons, List.foldl_cons]

theorem testCollisionPP_true_iff (p1 p2 : PolygonShape) (m : CollisionManifold) :
    (testCollisionPP p1 p2 m).1 = true ↔
      ∀ n ∈ p1.worldNormals ++ p2.worldNormals,
        overlapCond p1.worldVertices p2.worldVertices n := by
  simp only [testCollisionPP]
  cases hb : (satHalfTest p1.worldVertices p2.worldVertices m
      p1.worldNormals).1 with
  | false =>
    rw [if_pos rfl]
    constructor
    · intro hc
      exact absurd hc (by simp)
    · intro hall
      have htr := (satHalfTest_true_iff p1.worldVertices p2.worldVertices
        p1.worldNormals m).mpr (fun n hn => hall n (List.mem_append_left _ hn))
      rw [hb] at htr
      exact absurd htr (by simp)
  | true =>
    rw [if_neg (by simp)]
    rw [satHalfTest_true_iff]
    have h1 : ∀ n ∈ p1.worldNormals,
        overlapCond p1.worldVertices p2.worldVertices n :=
      (satHalfTest_true_iff p1.worldVertices p2.worldVertices
        p1.worldNormals m).mp hb
    constructor
    · intro h2 n hn
      rcases List.mem_append.mp hn with hn | hn
      · exact h1 n hn
      · exact (overlapCond_symm _ _ n).mpr (h2 n hn)
    · intro hall n hn
      exact (overlapCond_symm _ _ n).mp
        (hall n (List.mem_append_right _ hn))

theorem testCollisionPP_depth (p1 p2 : PolygonShape) (m : CollisionManifold)
    (hall : ∀ n ∈ p1.worldNormals ++ p2.worldNormals,
      overlapCond p1.worldVertices p2.worldVertices n) :
    (testCollisionPP p1 p2 m).2.depth =
      List.foldl min m.depth ((p1.worldNormals ++ p2.worldNormals).map
        (overlapAmount p1.worldVertices p2.worldVertices)) := by
  simp only [testCollisionPP]
  have hb : (satHalfTest p1.worldVertices p2.worldVertices m
      p1.worldNormals).1 = true :=
    (satHalfTest_true_iff p1.worldVertices p2.worldVertices
      p1.worldNormals m).mpr (fun n hn => hall n (List.mem_append_left _ hn))
  rw [if_neg (by rw [hb]; simp)]
  have hall2 : ∀ n ∈ p2.worldNormals,
      overlapCond p2.worldVertices p1.worldVertices n := fun n hn =>
    (overlapCond_symm _ _ n).mp (hall n (List.mem_append_right _ hn))
  rw [satHalfTest_depth p2.worldVertices p1.worldVertices p2.worldNormals _
    hall2]
  rw [satHalfTest_depth p1.worldVertices p2.worldVertices p1.worldNormals m
    (fun n hn => hall n (List.mem_append_left _ hn))]
  have hmap : p2.worldNormals.map
      (overlapAmount p2.worldVertices p1.worldVertices) =
      p2.worldNormals.map
        (overlapAmount p1.worldVertices p2.worldVertices) :=
    List.map_congr_left (fun n _ => overlapAmount_symm _ _ n)
  rw [hmap, List.map_append, List.foldl_append]

theorem foldl_min_append_comm (a : ℚ) (l1 l2 : List ℚ) :
    List.foldl min a (l1 ++ l2) = List.foldl min a (l2 ++ l1) :=
  foldl_perm_of_rightComm min (fun b a1 a2 => min_right_comm b a1 a2)
    List.perm_append_comm a

/-- C8: for every pair of shapes (circle or polygon), `impl::testCollision`
reports the same boolean outcome in both argument orders and, when a collision
is reported, writes the same penetration depth into the manifold.  `len`
abstracts `sf::Vector2f::length` and is only assumed symmetric under negation. -/
theorem collisionSymmetry (len : Vec2 → ℚ)
    (hlen : ∀ v : Vec2, len (Vec2.neg v) = len v) (a b : Shape) :
    (testCollision len a b initialManifold).1 =
      (testCollision len b a initialManifold).1
    ∧ ((testCollision len a b initialManifold).1 = true →
        (testCollision len a b initialManifold).2.depth =
          (testCollision len b a initialManifold).2.depth) := by
  cases a with
  | circle c1 =>
    cases b with
    | polygon p => exact ⟨rfl, fun _ => rfl⟩
    | circle c2 =>
      have hdir : Vec2.sub c1.pos c2.pos =
          Vec2.neg (Vec2.sub c2.pos c1.pos) := by
        simp only [Vec2.sub, Vec2.neg, Vec2.mk.injEq]
        constructor <;> ring
      simp only [testCollision, testCollisionCC]
      rw [hdir, hlen, add_comm c2.radius c1.radius]
      constructor
      · by_cases h : c1.radius + c2.radius > len (Vec2.sub c2.pos c1.pos)
        · rw [if_pos h, if_pos h]
        · rw [if_neg h, if_neg h]
      · intro htrue
        by_cases h : c1.radius + c2.radius > len (Vec2.sub c2.pos c1.pos)
        · rw [if_pos h, if_pos h]
        · rw [if_neg h] at htrue
          exact absurd htrue (by simp)
  | polygon p1 =>
    cases b with
    | circle c => exact ⟨rfl, fun _ => rfl⟩
    | polygon p2 =>
      simp only [testCollision]
      constructor
      · by_cases hall : ∀ n ∈ p1.worldNormals ++ p2.worldNormals,
            overlapCond p1.worldVertices p2.worldVertices n
        · have hall2 : ∀ n ∈ p2.worldNormals ++ p1.worldNormals,
              overlapCond p2.worldVertices p1.worldVertices n := by
            intro n hn
            rcases List.mem_append.mp hn with hn | hn
            · exact (overlapCond_symm _ _ n).mpr
                (hall n (List.mem_append_right _ hn))
            · exact (overlapCond_symm _ _ n).mpr
                (hall n (List.mem_append_left _ hn))
          rw [(testCollisionPP_true_iff p1 p2 initialManifold).mpr hall,
            (testCollisionPP_true_iff p2 p1 initialManifold).mpr hall2]
        · have hall2 : ¬ ∀ n ∈ p2.worldNormals ++ p1.worldNormals,
              overlapCond p2.worldVertices p1.worldVertices n := by
            intro hc
            refine hall (fun n hn => ?_)
            rcases List.mem_append.mp hn with hn | hn
            · exact (overlapCond_symm _ _ n).mpr
                (hc n (List.mem_append_right _ hn))
            · exact (overlapCond_symm _ _ n).mpr
                (hc n (List.mem_append_left _ hn))
          have h1 : (testCollisionPP p1 p2 initialManifold).1 ≠ true :=
            fun hc => hall ((testCollisionPP_true_iff p1 p2 _).mp hc)
          have h2 : (testCollisionPP p2 p1 initialManifold).1 ≠ true :=
            fun hc => hall2 ((testCollisionPP_true_iff p2 p1 _).mp hc)
          rw [Bool.eq_false_iff.mpr h1, Bool.eq_false_iff.mpr h2]
      · intro htrue
        have hall := (testCollisionPP_true_iff p1 p2 initialManifold).mp htrue
        have hall2 : ∀ n ∈ p2.worldNormals ++ p1.worldNormals,
            overlapCond p2.worldVertices p1.worldVertices n := by
          intro n hn
          rcases List.mem_append.mp hn with hn | hn
          · exact (overlapCond_symm _ _ n).mpr
              (hall n (List.mem_append_right _ hn))
          · exact (overlapCond_symm _ _ n).mpr
              (hall n (List.mem_append_left _ hn))
        rw [testCollisionPP_depth p1 p2 initialManifold hall,
          testCollisionPP_depth p2 p1 initialManifold hall2]
        have hmap : (p2.worldNormals ++ p1.worldNormals).map
            (overlapAmount p2.worldVertices p1.worldVertices) =
            (p2.worldNormals ++ p1.worldNormals).map
              (overlapAmount p1.worldVertices p2.worldVertices) :=
          List.map_congr_left (fun n _ => overlapAmount_symm _ _ n)
        rw [hmap, List.map_append, List.map_append]
        exact (foldl_min_append_comm _ _ _).symm ▸
          foldl_min_append_comm initialManifold.depth
            (p1.worldNormals.map
              (overlapAmount p1.worldVertices p2.worldVertices))
            (p2.worldNormals.map
              (overlapAmount p1.worldVertices p2.worldVertices))

/-- Witness for C8: a triangle against a distant circle, with the trivially
negation-symmetric length function that is constantly zero. -/
theorem collisionSymmetry_witness :
    (testCollision (fun _ => 0)
        (Shape.polygon ⟨[⟨0, 0⟩, ⟨1, 0⟩, ⟨0, 1⟩], [⟨0, -1⟩, ⟨1, 1⟩, ⟨-1, 0⟩]⟩)
        (Shape.circle ⟨⟨5, 5⟩, 1⟩) initialManifold).1 =
      (testCollision (fun _ => 0) (Shape.circle ⟨⟨5, 5⟩, 1⟩)
        (Shape.polygon ⟨[⟨0, 0⟩, ⟨1, 0⟩, ⟨0, 1⟩], [⟨0, -1⟩, ⟨1, 1⟩, ⟨-1, 0⟩]⟩)
        initialManifold).1
    ∧ ((testCollision (fun _ => 0)
        (Shape.polygon ⟨[⟨0, 0⟩, ⟨1, 0⟩, ⟨0, 1⟩], [⟨0, -1⟩, ⟨1, 1⟩, ⟨-1, 0⟩]⟩)
        (Shape.circle ⟨⟨5, 5⟩, 1⟩) initialManifold).1 = true →
      (testCollision (fun _ => 0)
        (Shape.polygon ⟨[⟨0, 0⟩, ⟨1, 0⟩, ⟨0, 1⟩], [⟨0, -1⟩, ⟨1, 1⟩, ⟨-1, 0⟩]⟩)
        (Shape.circle ⟨⟨5, 5⟩, 1⟩) initialManifold).2.depth =
      (testCollision (fun _ => 0) (Shape.circle ⟨⟨5, 5⟩, 1⟩)
        (Shape.polygon ⟨[⟨0, 0⟩, ⟨1, 0⟩, ⟨0, 1⟩], [⟨0, -1⟩, ⟨1, 1⟩, ⟨-1, 0⟩]⟩)
        initialManifold).2.depth) :=
  collisionSymmetry (fun _ => 0) (fun _ => rfl)
    (Shape.polygon ⟨[⟨0, 0⟩, ⟨1, 0⟩, ⟨0, 1⟩], [⟨0, -1⟩, ⟨1, 1⟩, ⟨-1, 0⟩]⟩)
    (Shape.circle ⟨⟨5, 5⟩, 1⟩)

end ae
